import Mathlib

/-!
# Verification of the hunter-sim combat engine

Shallow embedding of the discrete-event combat simulation in
`src/hunter-sim/sim.py`, `src/hunter-sim/hunters.py` and
`src/hunter-sim/units.py`.  Python floats are modelled as rationals (`ℚ`);
the claims settled here are structural and do not depend on binary float
rounding.  `random.random()` is modelled as reading successive values of an
explicit stream.  Parts of the repository's `units.py` revision that
`sim.py` actually drives (`Enemy`/`Boss` with `queue_initial_attack`,
`attack_special`, `speed2` and the enrage counter) are not present under
`src/`; those definitions are modelled from the spec and carry a
`Modelled from the spec:` doc comment.
-/

namespace HunterSim

/-- `round(x, 3)` from `sim.py`: timestamps are rounded to 3 decimal places
before insertion into the event queue.  (Python uses bankers' rounding on
binary floats; the tie behaviour at exact half-thousandths is immaterial to
every claim proved here.) -/
def round3 (x : ℚ) : ℚ := (round (x * 1000) : ℤ) / 1000

/-- `round(x, 0)` as used by `Hunter.missing_hp_pct`. -/
def round0 (x : ℚ) : ℚ := (round x : ℤ)

/-- The action kinds dispatched by `Simulation.simulate_combat`
(`sim.py` lines 404-429): `'hunter'`, `'enemy'`, `'stun'`,
`'hunter_special'`, `'enemy_special'`, `'regen'`. -/
inductive HAction : Type
  | hunter
  | enemy
  | stun
  | hunterSpecial
  | enemySpecial
  | regen
  deriving DecidableEq, Repr, Inhabited

/-- Rank of the Python action string in lexicographic string order, used as
the third tuple component when `heapq` compares events whose timestamp and
tie-break priority are equal:
`'enemy' < 'enemy_special' < 'hunter' < 'hunter_special' < 'regen' < 'stun'`. -/
def HAction.strKey : HAction → ℕ
  | .enemy => 0
  | .enemySpecial => 1
  | .hunter => 2
  | .hunterSpecial => 3
  | .regen => 4
  | .stun => 5

/-- An event queue entry: the tuple `(timestamp, tie-break priority, action)`
pushed by `sim.py` and `hunters.py`. -/
structure Event : Type where
  time : ℚ
  priority : ℕ
  act : HAction
  deriving DecidableEq, Repr, Inhabited

/-- The key Python's tuple comparison orders events by. -/
def Event.key (e : Event) : Lex (ℚ × Lex (ℕ × ℕ)) :=
  toLex (e.time, toLex (e.priority, e.act.strKey))

theorem HAction.strKey_injective : Function.Injective HAction.strKey := by
  intro a b h
  cases a <;> cases b <;> first | rfl | simp [HAction.strKey] at h

theorem Event.key_injective : Function.Injective Event.key := by
  intro a b h
  cases a; cases b
  simp only [Event.key, toLex_inj, Prod.mk.injEq] at h
  simp only [Event.mk.injEq]
  exact ⟨h.1, h.2.1, HAction.strKey_injective h.2.2⟩

/-- Events compare the way Python compares the tuples
`(timestamp, priority, action_string)`: lexicographically. -/
instance : LinearOrder Event := LinearOrder.lift' Event.key Event.key_injective

/-- Unfolded form of the event order: Python's lexicographic tuple comparison. -/
theorem Event.le_def (a b : Event) :
    a ≤ b ↔ a.time < b.time ∨ (a.time = b.time ∧
      (a.priority < b.priority ∨ (a.priority = b.priority ∧ a.act.strKey ≤ b.act.strKey))) := by
  show a.key ≤ b.key ↔ _
  simp [Event.key, Prod.Lex.le_iff]

/-- Unfolded form of the strict event order. -/
theorem Event.lt_def (a b : Event) :
    a < b ↔ a.time < b.time ∨ (a.time = b.time ∧
      (a.priority < b.priority ∨ (a.priority = b.priority ∧ a.act.strKey < b.act.strKey))) := by
  show a.key < b.key ↔ _
  simp [Event.key, Prod.Lex.lt_iff]

/-!
## The event queue: CPython `heapq`

`sim.py` and `hunters.py` push and pop events with `heapq.heappush` /
`heapq.heappop` (imported as `hpush` / `hpop`).  The definitions below are a
direct translation of the pure-Python reference implementation of `heapq`
(`_siftdown`, `_siftup`, `heappush`, `heappop`) to lists; `l.getD i d` reads
index `i` (the default is never reached at the in-range indices these
algorithms touch), `l.set i a` writes it.
-/

namespace PyHeap

variable {α : Type*} [LinearOrder α] [Inhabited α]

/-- `heapq._siftdown(heap, startpos, pos)` with `newitem` already read from
`heap[pos]`: follow the path to the root, moving parents down until finding a
place `newitem` fits.  The while loop is embedded with explicit fuel `gas`;
`pos` strictly decreases at each iteration, so with `gas = pos` the fuel can
only run out at `pos = 0`, where the loop stops anyway and the fuel-out case
coincides with the loop exit (`heap[pos] = newitem`). -/
def siftdownAux : ℕ → List α → ℕ → ℕ → α → List α
  | 0, heap, _, pos, newitem => heap.set pos newitem
  | gas + 1, heap, startpos, pos, newitem =>
    if startpos < pos then
      if newitem < heap.getD ((pos - 1) / 2) default then
        siftdownAux gas (heap.set pos (heap.getD ((pos - 1) / 2) default)) startpos
          ((pos - 1) / 2) newitem
      else
        heap.set pos newitem
    else
      heap.set pos newitem

/-- `heapq._siftdown(heap, startpos, pos)`. -/
def siftdown (heap : List α) (startpos pos : ℕ) : List α :=
  siftdownAux pos heap startpos pos (heap.getD pos default)

/-- `heapq.heappush(heap, item)`: append, then sift the new leaf up. -/
def heappush (heap : List α) (item : α) : List α :=
  siftdown (heap ++ [item]) 0 heap.length

/-- The smaller-child selection inside `heapq._siftup`: starting from the
leftmost child position, move to the right sibling when it exists and the
left child is not smaller. -/
def pickChild (heap : List α) (endpos childpos : ℕ) : ℕ :=
  if childpos + 1 < endpos ∧ ¬ heap.getD childpos default < heap.getD (childpos + 1) default then
    childpos + 1
  else
    childpos

theorem pickChild_lt_endpos (heap : List α) (endpos childpos : ℕ)
    (h : childpos < endpos) : pickChild heap endpos childpos < endpos := by
  unfold pickChild
  split
  · next hc => exact hc.1
  · exact h

theorem le_pickChild (heap : List α) (endpos childpos : ℕ) :
    childpos ≤ pickChild heap endpos childpos := by
  unfold pickChild
  split <;> omega

/-- `heapq._siftup(heap, pos)` with `newitem` already read from `heap[pos]`:
bubble the smaller child up until hitting a leaf, then place `newitem` at the
leaf and sift it down.  The while loop is embedded with explicit fuel `gas`;
`pos` at least doubles at each iteration, so with `gas = heap.length` the
fuel can only run out at a leaf, where the fuel-out case coincides with the
loop exit (place `newitem` and `_siftdown`). -/
def siftupAux : ℕ → List α → ℕ → ℕ → ℕ → α → List α
  | 0, heap, _, startpos, pos, newitem =>
    siftdownAux pos (heap.set pos newitem) startpos pos newitem
  | gas + 1, heap, endpos, startpos, pos, newitem =>
    if 2 * pos + 1 < endpos then
      siftupAux gas (heap.set pos (heap.getD (pickChild heap endpos (2 * pos + 1)) default))
        endpos startpos (pickChild heap endpos (2 * pos + 1)) newitem
    else
      siftdownAux pos (heap.set pos newitem) startpos pos newitem

/-- `heapq._siftup(heap, pos)`. -/
def siftup (heap : List α) (pos : ℕ) : List α :=
  siftupAux heap.length heap heap.length pos pos (heap.getD pos default)

/-- `heapq.heappop(heap)`: remove the last element; if the heap is still
nonempty, move it to the root and sift up, returning the old root.  Returns
`none` on an empty heap (Python raises `IndexError`). -/
def heappop (heap : List α) : Option (α × List α) :=
  match heap.getLast? with
  | none => none
  | some lastelt =>
    if heap.dropLast.isEmpty then
      some (lastelt, [])
    else
      some (heap.dropLast.getD 0 default, siftup (heap.dropLast.set 0 lastelt) 0)

/-- The binary min-heap invariant maintained by `heapq`: every element is at
least its parent. -/
def IsHeap (l : List α) : Prop :=
  ∀ j, 0 < j → j < l.length → l.getD ((j - 1) / 2) default ≤ l.getD j default

/-! ### Read/write bookkeeping -/

theorem getD_set_self (l : List α) (i : ℕ) (a d : α) (h : i < l.length) :
    (l.set i a).getD i d = a := by
  simp [List.getD_eq_getElem?_getD, List.getElem?_set_eq_of_lt a h]

theorem getD_set_ne (l : List α) (i j : ℕ) (a d : α) (h : i ≠ j) :
    (l.set i a).getD j d = l.getD j d := by
  simp [List.getD_eq_getElem?_getD, List.getElem?_set_ne h]

theorem getD_append_left (l : List α) (x : α) (i : ℕ) (d : α) (h : i < l.length) :
    (l ++ [x]).getD i d = l.getD i d := by
  simp [List.getD_eq_getElem?_getD, List.getElem?_append_left h]

theorem getD_append_lastPos (l : List α) (x d : α) :
    (l ++ [x]).getD l.length d = x := by
  simp [List.getD_eq_getElem?_getD]

theorem getD_mem (l : List α) (i : ℕ) (d : α) (h : i < l.length) : l.getD i d ∈ l := by
  rw [List.getD_eq_getElem l d h]
  exact List.getElem_mem ..

theorem getD_dropLast (l : List α) (i : ℕ) (d : α) (h : i < l.length - 1) :
    l.dropLast.getD i d = l.getD i d := by
  have hpre := List.dropLast_prefix l
  have hlen : l.dropLast.length = l.length - 1 := List.length_dropLast l
  have hi : i < l.dropLast.length := by omega
  have hi' : i < l.length := by omega
  rw [List.getD_eq_getElem _ d hi, List.getD_eq_getElem _ d hi']
  exact List.IsPrefix.getElem hpre hi

/-! ### Lengths are preserved -/

theorem length_siftdownAux : ∀ (gas pos : ℕ) (l : List α) (sp : ℕ) (x : α),
    (siftdownAux gas l sp pos x).length = l.length := by
  intro gas
  induction gas with
  | zero =>
    intro pos l sp x
    exact List.length_set ..
  | succ g ih =>
    intro pos l sp x
    simp only [siftdownAux]
    split
    · split
      · rw [ih, List.length_set]
      · exact List.length_set ..
    · exact List.length_set ..

theorem length_siftupAux : ∀ (gas pos : ℕ) (l : List α) (endpos sp : ℕ) (x : α),
    (siftupAux gas l endpos sp pos x).length = l.length := by
  intro gas
  induction gas with
  | zero =>
    intro pos l endpos sp x
    simp only [siftupAux]
    rw [length_siftdownAux, List.length_set]
  | succ g ih =>
    intro pos l endpos sp x
    simp only [siftupAux]
    split
    · rw [ih, List.length_set]
    · rw [length_siftdownAux, List.length_set]

theorem length_heappush (l : List α) (x : α) :
    (heappush l x).length = l.length + 1 := by
  unfold heappush siftdown
  rw [length_siftdownAux]
  simp

/-! ### Results are drawn from the inputs -/

theorem mem_siftdownAux : ∀ (gas pos : ℕ) (l : List α) (sp : ℕ) (x y : α),
    pos < l.length → y ∈ siftdownAux gas l sp pos x → y ∈ l ∨ y = x := by
  intro gas
  induction gas with
  | zero =>
    intro pos l sp x y hpos hy
    rcases List.mem_or_eq_of_mem_set hy with h' | h'
    · exact Or.inl h'
    · exact Or.inr h'
  | succ g ih =>
    intro pos l sp x y hpos hy
    simp only [siftdownAux] at hy
    split at hy
    · next h1 =>
      split at hy
      · rcases ih ((pos - 1) / 2) _ _ _ _
            (by rw [List.length_set]; omega) hy with h | h
        · rcases List.mem_or_eq_of_mem_set h with h' | h'
          · exact Or.inl h'
          · exact Or.inl (h' ▸ getD_mem l ((pos - 1) / 2) default (by omega))
        · exact Or.inr h
      · rcases List.mem_or_eq_of_mem_set hy with h' | h'
        · exact Or.inl h'
        · exact Or.inr h'
    · rcases List.mem_or_eq_of_mem_set hy with h' | h'
      · exact Or.inl h'
      · exact Or.inr h'

theorem mem_siftupAux : ∀ (gas pos : ℕ) (l : List α) (endpos sp : ℕ) (x y : α),
    endpos = l.length → l.length - pos ≤ gas → pos < l.length →
    y ∈ siftupAux gas l endpos sp pos x → y ∈ l ∨ y = x := by
  intro gas
  induction gas with
  | zero =>
    intro pos l endpos sp x y he hg hpos hy
    omega
  | succ g ih =>
    intro pos l endpos sp x y he hg hpos hy
    simp only [siftupAux] at hy
    split at hy
    · next h =>
      have hcp_lt := pickChild_lt_endpos l endpos (2 * pos + 1) h
      have hcp_ge := le_pickChild l endpos (2 * pos + 1)
      have hlen : (l.set pos (l.getD (pickChild l endpos (2 * pos + 1)) default)).length
          = l.length := List.length_set ..
      rcases ih (pickChild l endpos (2 * pos + 1))
          (l.set pos (l.getD (pickChild l endpos (2 * pos + 1)) default)) endpos sp x y
          (by omega) (by omega) (by omega) hy with h' | h'
      · rcases List.mem_or_eq_of_mem_set h' with h'' | h''
        · exact Or.inl h''
        · exact Or.inl (h'' ▸ getD_mem l _ default (by omega))
      · exact Or.inr h'
    · rcases mem_siftdownAux pos pos _ sp x y (by rw [List.length_set]; omega) hy with h' | h'
      · rcases List.mem_or_eq_of_mem_set h' with h'' | h''
        · exact Or.inl h''
        · exact Or.inr h''
      · exact Or.inr h'

theorem mem_heappush (l : List α) (x y : α) (hy : y ∈ heappush l x) : y ∈ l ∨ y = x := by
  unfold heappush siftdown at hy
  rw [getD_append_lastPos] at hy
  rcases mem_siftdownAux l.length l.length _ 0 x y (by simp) hy with h | h
  · rcases List.mem_append.mp h with h' | h'
    · exact Or.inl h'
    · exact Or.inr (List.mem_singleton.mp h')
  · exact Or.inr h

/-! ### The root of a heap is its minimum -/

theorem isHeap_root_le (l : List α) (hl : IsHeap l) :
    ∀ j, j < l.length → l.getD 0 default ≤ l.getD j default := by
  intro j
  induction j using Nat.strong_induction_on with
  | _ j ih =>
    intro hj
    rcases Nat.eq_zero_or_pos j with rfl | hpos
    · exact le_refl _
    · exact le_trans (ih ((j - 1) / 2) (by omega) (by omega)) (hl j hpos hj)

theorem isHeap_le_mem (l : List α) (hl : IsHeap l) (y : α) (hy : y ∈ l) :
    l.getD 0 default ≤ y := by
  obtain ⟨i, hi, rfl⟩ := List.mem_iff_getElem.mp hy
  rw [← List.getD_eq_getElem l default hi]
  exact isHeap_root_le l hl i hi

/-! ### `_siftdown` (bubble-up) restores the invariant

The precondition: the array is a heap everywhere except at the edges into
`pos`, and the element `x` to be placed is below every child of `pos` while
`pos`'s children are also below `pos`'s parent (so the parent may move down
into `pos`). -/

def SiftUpOk (l : List α) (pos : ℕ) (x : α) : Prop :=
  pos < l.length ∧
  (∀ j, 0 < j → j < l.length → j ≠ pos →
    l.getD ((j - 1) / 2) default ≤ l.getD j default) ∧
  (∀ j, 0 < j → j < l.length → (j - 1) / 2 = pos →
    x ≤ l.getD j default ∧
      (0 < pos → l.getD ((pos - 1) / 2) default ≤ l.getD j default))

theorem isHeap_set_final (l : List α) (pos : ℕ) (x : α)
    (hlen : pos < l.length)
    (hedge : ∀ j, 0 < j → j < l.length → j ≠ pos →
      l.getD ((j - 1) / 2) default ≤ l.getD j default)
    (hchild : ∀ j, 0 < j → j < l.length → (j - 1) / 2 = pos → x ≤ l.getD j default)
    (hup : 0 < pos → l.getD ((pos - 1) / 2) default ≤ x) :
    IsHeap (l.set pos x) := by
  intro j hj0 hjlen
  rw [List.length_set] at hjlen
  by_cases hjp : j = pos
  · subst hjp
    rw [getD_set_ne _ _ _ _ _ (by omega : j ≠ (j - 1) / 2),
      getD_set_self _ _ _ _ hlen]
    exact hup hj0
  · rw [getD_set_ne _ _ _ _ _ (Ne.symm hjp)]
    by_cases hparent : (j - 1) / 2 = pos
    · rw [hparent, getD_set_self _ _ _ _ hlen]
      exact hchild j hj0 hjlen hparent
    · rw [getD_set_ne _ _ _ _ _ (fun h => hparent h.symm)]
      exact hedge j hj0 hjlen hjp

theorem siftdownAux_isHeap : ∀ (gas pos : ℕ) (l : List α) (x : α),
    pos ≤ gas → SiftUpOk l pos x → IsHeap (siftdownAux gas l 0 pos x) := by
  intro gas
  induction gas with
  | zero =>
    intro pos l x hpg hok
    obtain ⟨hlen, hedge, hchild⟩ := hok
    have hz : pos = 0 := by omega
    subst hz
    exact isHeap_set_final l 0 x hlen hedge (fun j a b c => (hchild j a b c).1)
      (fun h => absurd h (by omega))
  | succ g ih =>
    intro pos l x hpg hok
    obtain ⟨hlen, hedge, hchild⟩ := hok
    simp only [siftdownAux]
    split
    · next hpos0 =>
      split
      · next hlt =>
        apply ih ((pos - 1) / 2) _ _ (by omega)
        have hpplen : (pos - 1) / 2 < l.length := by omega
        refine ⟨by rw [List.length_set]; omega, ?_, ?_⟩
        · intro j hj0 hjlen hjne
          rw [List.length_set] at hjlen
          by_cases hjp : j = pos
          · subst hjp
            rw [getD_set_ne _ _ _ _ _ (by omega : j ≠ (j - 1) / 2),
              getD_set_self _ _ _ _ hlen]
          · rw [getD_set_ne _ _ _ _ _ (Ne.symm hjp)]
            by_cases hparent : (j - 1) / 2 = pos
            · rw [hparent, getD_set_self _ _ _ _ hlen]
              exact (hchild j hj0 hjlen hparent).2 hpos0
            · rw [getD_set_ne _ _ _ _ _ (fun h => hparent h.symm)]
              exact hedge j hj0 hjlen hjp
        · intro j hj0 hjlen hparent
          rw [List.length_set] at hjlen
          have hjpos0 : 0 < pos := hpos0
          constructor
          · by_cases hjp : j = pos
            · subst hjp
              rw [getD_set_self _ _ _ _ hlen]
              exact le_of_lt hlt
            · rw [getD_set_ne _ _ _ _ _ (Ne.symm hjp)]
              exact le_trans (le_of_lt hlt) (hparent ▸ hedge j hj0 hjlen hjp)
          · intro hpp0
            have hgp_ne : ((pos - 1) / 2 - 1) / 2 ≠ pos := by omega
            rw [getD_set_ne _ _ _ _ _ (fun h => hgp_ne h.symm)]
            have hppedge : l.getD (((pos - 1) / 2 - 1) / 2) default
                ≤ l.getD ((pos - 1) / 2) default :=
              hedge ((pos - 1) / 2) hpp0 hpplen (by omega)
            by_cases hjp : j = pos
            · subst hjp
              rw [getD_set_self _ _ _ _ hlen]
              exact hppedge
            · rw [getD_set_ne _ _ _ _ _ (Ne.symm hjp)]
              exact le_trans hppedge (hparent ▸ hedge j hj0 hjlen hjp)
      · next hge =>
        exact isHeap_set_final l pos x hlen hedge (fun j a b c => (hchild j a b c).1)
          (fun _ => not_lt.mp hge)
    · next hpos0 =>
      have hz : pos = 0 := by omega
      subst hz
      exact isHeap_set_final l 0 x hlen hedge (fun j a b c => (hchild j a b c).1)
        (fun h => absurd h (by omega))

theorem isHeap_heappush (l : List α) (x : α) (hl : IsHeap l) : IsHeap (heappush l x) := by
  unfold heappush siftdown
  rw [getD_append_lastPos]
  refine siftdownAux_isHeap _ _ _ _ (le_refl _) ?_
  refine ⟨by simp, ?_, ?_⟩
  · intro j hj0 hjlen hjne
    rw [List.length_append, List.length_singleton] at hjlen
    have hjl : j < l.length := by omega
    rw [getD_append_left _ _ _ _ hjl, getD_append_left _ _ _ _ (by omega)]
    exact hl j hj0 hjl
  · intro j hj0 hjlen hpar
    rw [List.length_append, List.length_singleton] at hjlen
    exfalso
    omega

/-! ### `_siftup` (sift the new root to a leaf, then bubble up) restores
the invariant

The descend-phase precondition: the array is a heap except at the edges
touching the hole `pos`, and the hole's children are at least the hole's
parent. -/

def SiftAcc (l : List α) (pos : ℕ) : Prop :=
  pos < l.length ∧
  (∀ j, 0 < j → j < l.length → j ≠ pos → (j - 1) / 2 ≠ pos →
    l.getD ((j - 1) / 2) default ≤ l.getD j default) ∧
  (0 < pos → ∀ j, 0 < j → j < l.length → (j - 1) / 2 = pos →
    l.getD ((pos - 1) / 2) default ≤ l.getD j default)

theorem pickChild_parent (l : List α) (endpos pos : ℕ) :
    (pickChild l endpos (2 * pos + 1) - 1) / 2 = pos := by
  unfold pickChild
  split <;> omega

theorem pickChild_min (l : List α) (endpos pos : ℕ) (h : 2 * pos + 1 < endpos) :
    ∀ j, (j - 1) / 2 = pos → 0 < j → j < endpos →
      l.getD (pickChild l endpos (2 * pos + 1)) default ≤ l.getD j default := by
  intro j hpar hj0 hjend
  have hj : j = 2 * pos + 1 ∨ j = 2 * pos + 2 := by omega
  unfold pickChild
  split
  · next hc =>
    rcases hj with rfl | rfl
    · exact not_lt.mp hc.2
    · exact le_refl _
  · next hc =>
    rcases hj with rfl | rfl
    · exact le_refl _
    · rcases Decidable.not_and_iff_or_not.mp hc with hc' | hc'
      · omega
      · exact le_of_lt (not_not.mp hc')

theorem siftupAux_isHeap : ∀ (gas pos : ℕ) (l : List α) (endpos : ℕ) (x : α),
    endpos = l.length → l.length - pos ≤ gas → SiftAcc l pos →
    IsHeap (siftupAux gas l endpos 0 pos x) := by
  intro gas
  induction gas with
  | zero =>
    intro pos l endpos x he hg hacc
    exact absurd hacc.1 (by omega)
  | succ g ih =>
    intro pos l endpos x he hg hacc
    obtain ⟨hlen, hedge, hupper⟩ := hacc
    simp only [siftupAux]
    split
    · next hchild =>
      have hcp_lt : pickChild l endpos (2 * pos + 1) < endpos :=
        pickChild_lt_endpos l endpos (2 * pos + 1) hchild
      have hcp_ge : 2 * pos + 1 ≤ pickChild l endpos (2 * pos + 1) :=
        le_pickChild l endpos (2 * pos + 1)
      have hcp_par : (pickChild l endpos (2 * pos + 1) - 1) / 2 = pos :=
        pickChild_parent l endpos pos
      have hcp_min := pickChild_min l endpos pos hchild
      apply ih (pickChild l endpos (2 * pos + 1)) _ endpos x
        (by rw [List.length_set]; omega) (by rw [List.length_set]; omega)
      -- SiftAcc (l.set pos (l.getD cp default)) cp
      refine ⟨by rw [List.length_set]; omega, ?_, ?_⟩
      · intro j hj0 hjlen hjcp hjpar
        rw [List.length_set] at hjlen
        by_cases hjp : j = pos
        · subst hjp
          rw [getD_set_ne _ _ _ _ _ (by omega : j ≠ (j - 1) / 2),
            getD_set_self _ _ _ _ hlen]
          exact hupper hj0 _ (by omega) (by omega) hcp_par
        · rw [getD_set_ne _ _ _ _ _ (Ne.symm hjp)]
          by_cases hparent : (j - 1) / 2 = pos
          · rw [hparent, getD_set_self _ _ _ _ hlen]
            exact hcp_min j hparent hj0 (by omega)
          · rw [getD_set_ne _ _ _ _ _ (fun h => hparent h.symm)]
            exact hedge j hj0 hjlen hjp hparent
      · intro hcp0 j hj0 hjlen hjpar
        rw [List.length_set] at hjlen
        rw [hcp_par, getD_set_self _ _ _ _ hlen]
        have hjne_pos : j ≠ pos := by omega
        rw [getD_set_ne _ _ _ _ _ (Ne.symm hjne_pos)]
        exact hjpar ▸ hedge j hj0 hjlen hjne_pos (by omega)
    · next hleaf =>
      refine siftdownAux_isHeap _ _ _ _ (le_refl _) ?_
      refine ⟨by rw [List.length_set]; omega, ?_, ?_⟩
      · intro j hj0 hjlen hjne
        rw [List.length_set] at hjlen
        have hpj : (j - 1) / 2 ≠ pos := by omega
        rw [getD_set_ne _ _ _ _ _ (Ne.symm hjne),
          getD_set_ne _ _ _ _ _ (fun h => hpj h.symm)]
        exact hedge j hj0 hjlen hjne hpj
      · intro j hj0 hjlen hpar
        rw [List.length_set] at hjlen
        exfalso
        omega

/-! ### The `heappop` specification -/

theorem heappop_spec (l : List α) (hl : IsHeap l) :
    ∀ x l', heappop l = some (x, l') →
      x ∈ l ∧ (∀ y ∈ l, x ≤ y) ∧ IsHeap l' ∧ l'.length + 1 = l.length ∧
        (∀ y ∈ l', y ∈ l) := by
  intro x l' h
  unfold heappop at h
  split at h
  · exact absurd h (by simp)
  · next lastelt hlast =>
    have hlmem : lastelt ∈ l := List.mem_of_mem_getLast? (by simp [hlast])
    have hlne : l ≠ [] := by
      intro hcon
      rw [hcon] at hlast
      exact absurd hlast (by simp)
    have hlpos : 0 < l.length := List.length_pos.mpr hlne
    have hldrop : l.dropLast.length = l.length - 1 := List.length_dropLast l
    split at h
    · next hemp =>
      -- l has exactly one element
      have hone : l.length = 1 := by
        have h0 := List.isEmpty_iff.mp hemp
        have hlen0 : l.dropLast.length = 0 := by rw [h0]; rfl
        omega
      have hx : x = lastelt ∧ l' = [] := by
        have h1 := (Option.some.injEq _ _).mp h
        exact ⟨(congrArg Prod.fst h1).symm, (congrArg Prod.snd h1).symm⟩
      obtain ⟨rfl, rfl⟩ := hx
      have hx0 : x = l.getD 0 default := by
        rw [List.getD_eq_getElem?_getD, show (0 : ℕ) = l.length - 1 from by omega,
          ← List.getLast?_eq_getElem? l, hlast]
        rfl
      refine ⟨hlmem, ?_, by intro j hj0 hjl; simp at hjl, by simpa using hone.symm, by simp⟩
      intro y hy
      rw [hx0]
      exact isHeap_le_mem l hl y hy
    · next hemp =>
      have hdne : l.dropLast ≠ [] := by
        intro hcon
        rw [hcon] at hemp
        exact hemp rfl
      have hdpos : 0 < l.dropLast.length := List.length_pos.mpr hdne
      have hx : x = l.dropLast.getD 0 default ∧
          l' = siftup (l.dropLast.set 0 lastelt) 0 := by
        have h1 := (Option.some.injEq _ _).mp h
        exact ⟨(congrArg Prod.fst h1).symm, (congrArg Prod.snd h1).symm⟩
      obtain ⟨rfl, rfl⟩ := hx
      have hx0 : l.dropLast.getD 0 default = l.getD 0 default :=
        getD_dropLast l 0 default (by omega)
      have hsetlen : (l.dropLast.set 0 lastelt).length = l.length - 1 := by
        rw [List.length_set]; omega
      refine ⟨?_, ?_, ?_, ?_, ?_⟩
      · rw [hx0]
        exact getD_mem l 0 default (by omega)
      · intro y hy
        rw [hx0]
        exact isHeap_le_mem l hl y hy
      · unfold siftup
        apply siftupAux_isHeap (l.dropLast.set 0 lastelt).length 0 _ _ _ rfl (by omega)
        refine ⟨by omega, ?_, ?_⟩
        · intro j hj0 hjlen hjne hjpar
          rw [List.length_set] at hjlen
          rw [getD_set_ne _ _ _ _ _ (Ne.symm hjne),
            getD_set_ne _ _ _ _ _ (fun hcon => hjpar hcon.symm),
            getD_dropLast l j default (by omega),
            getD_dropLast l ((j - 1) / 2) default (by omega)]
          exact hl j hj0 (by omega)
        · intro hcon
          exact absurd hcon (by omega)
      · unfold siftup
        rw [length_siftupAux]
        omega
      · intro y hy
        unfold siftup at hy
        rcases mem_siftupAux (l.dropLast.set 0 lastelt).length 0 _ _ _ _ y rfl
            (by omega) (by omega) hy with h' | h'
        · rcases List.mem_or_eq_of_mem_set h' with h'' | h''
          · exact (List.dropLast_prefix l).subset h''
          · exact h'' ▸ hlmem
        · rw [h', getD_set_self _ _ _ _ (by omega)]
          exact hlmem

/-- The remainder returned by `heappop` only holds elements of the input
list (no heap hypothesis needed). -/
theorem heappop_subset (l : List α) :
    ∀ x l', heappop l = some (x, l') → ∀ y ∈ l', y ∈ l := by
  intro x l' h
  unfold heappop at h
  split at h
  · exact absurd h (by simp)
  · next lastelt hlast =>
    have hlmem : lastelt ∈ l := List.mem_of_mem_getLast? (by simp [hlast])
    have hlne : l ≠ [] := by
      intro hcon
      rw [hcon] at hlast
      exact absurd hlast (by simp)
    have hlpos : 0 < l.length := List.length_pos.mpr hlne
    have hldrop : l.dropLast.length = l.length - 1 := List.length_dropLast l
    split at h
    · have hx : l' = [] := (congrArg Prod.snd ((Option.some.injEq _ _).mp h)).symm
      subst hx
      intro y hy
      cases hy
    · next hemp =>
      have hdne : l.dropLast ≠ [] := fun hcon => hemp (by rw [hcon]; rfl)
      have hdpos : 0 < l.dropLast.length := List.length_pos.mpr hdne
      have hsetlen : (l.dropLast.set 0 lastelt).length = l.length - 1 := by
        rw [List.length_set]; omega
      have hx : l' = siftup (l.dropLast.set 0 lastelt) 0 :=
        (congrArg Prod.snd ((Option.some.injEq _ _).mp h)).symm
      subst hx
      intro y hy
      unfold siftup at hy
      rcases mem_siftupAux (l.dropLast.set 0 lastelt).length 0 _ _ _ _ y rfl
          (by omega) (by omega) hy with h' | h'
      · rcases List.mem_or_eq_of_mem_set h' with h'' | h''
        · exact (List.dropLast_prefix l).subset h''
        · exact h'' ▸ hlmem
      · rw [h', getD_set_self _ _ _ _ (by omega)]
        exact hlmem

/-- Popping a nonempty queue succeeds (Python raises `IndexError` only on
an empty heap). -/
theorem heappop_isSome (l : List α) (hne : l ≠ []) :
    ∃ x l', heappop l = some (x, l') := by
  cases hlast : l.getLast? with
  | none => exact absurd (List.getLast?_eq_none.mp hlast) hne
  | some lastelt =>
    unfold heappop
    rw [hlast]
    simp only []
    split
    · exact ⟨lastelt, [], rfl⟩
    · exact ⟨_, _, rfl⟩

/-- The element `heappop` returns was in the queue (no heap hypothesis
needed). -/
theorem heappop_mem (l : List α) (x : α) (l' : List α) (h : heappop l = some (x, l')) :
    x ∈ l := by
  unfold heappop at h
  split at h
  · exact absurd h (by simp)
  · next lastelt hlast =>
    have hlmem : lastelt ∈ l := List.mem_of_mem_getLast? (by simp [hlast])
    have hlne : l ≠ [] := by
      intro hcon
      rw [hcon] at hlast
      exact absurd hlast (by simp)
    have hlpos : 0 < l.length := List.length_pos.mpr hlne
    have hldrop : l.dropLast.length = l.length - 1 := List.length_dropLast l
    split at h
    · have hx : x = lastelt := (congrArg Prod.fst ((Option.some.injEq _ _).mp h)).symm
      exact hx ▸ hlmem
    · next hemp =>
      have hdne : l.dropLast ≠ [] := fun hcon => hemp (by rw [hcon]; rfl)
      have hdpos : 0 < l.dropLast.length := List.length_pos.mpr hdne
      have hx : x = l.dropLast.getD 0 default :=
        (congrArg Prod.fst ((Option.some.injEq _ _).mp h)).symm
      rw [hx, getD_dropLast l 0 default (by omega)]
      exact getD_mem l 0 default (by omega)

/-- A push leaves the queue nonempty. -/
theorem heappush_ne_nil (l : List α) (x : α) : heappush l x ≠ [] := by
  intro hcon
  have hlen := length_heappush l x
  rw [hcon] at hlen
  simp at hlen

end PyHeap

/-!
## The random source

`hunters.py` and `units.py` draw from Python's global `random.random()`.
It is modelled as an explicit stream of rationals (each draw reads the next
value and advances the index); a fixed seed corresponds to a fixed stream.
-/

/-- The random stream: `f` is the seeded sequence, `idx` the position. -/
structure Rng : Type where
  f : ℕ → ℚ
  idx : ℕ

/-- One call of `random.random()`. -/
def Rng.next (r : Rng) : ℚ × Rng := (r.f r.idx, ⟨r.f, r.idx + 1⟩)

/-!
## Hunter state (`hunters.py`)

One record holds the union of the fields of `Hunter`, `Borge` and `Ozzy`
(Python attaches per-class attributes to the same object).  The derived
stats produced by `__create__` (`self.max_hp = ...` etc.) are plain fields
here; the claims under verification are about the accessors and combat
methods, not the build-file stat derivation.  Fields named `*Raw` model the
private attributes (`_power`, `_speed`, ...) behind the `@property`
accessors.  `catchupFactor` models the float
`(1.08 ** gems["attraction_catch-up"]) ** (1 + gems["attraction_gem"]*0.1 - 0.1)`
appearing in the `power` and `speed` getters: its fractional exponent is not
rational in general, so it is carried as the state constant it is (it never
changes during a run). -/

inductive HKind : Type
  | borge
  | ozzy
  deriving DecidableEq, Repr

/-- Ozzy's queued triggered-attack tags `'(MS)'`, `'(ECHO)'`, `'(ECHO-MS)'`. -/
inductive AtkKind : Type
  | ms
  | echo
  | echoMs
  deriving DecidableEq, Repr

structure Hunter : Type where
  kind : HKind
  -- combat statistics (floats / ints)
  hp : ℚ
  max_hp : ℚ
  powerRaw : ℚ            -- `_power`
  speedRaw : ℚ            -- `_speed`
  drRaw : ℚ               -- `_damage_reduction`
  effectRaw : ℚ           -- `_effect_chance`
  specialChanceRaw : ℚ    -- `_special_chance`
  specialDamageRaw : ℚ    -- `special_damage` (Borge: plain; Ozzy: `_special_damage`)
  evade_chance : ℚ
  regen : ℚ
  lifesteal : ℚ
  fires_of_war : ℚ        -- Borge's transient attack-speed bonus
  catchupFactor : ℚ
  -- mutable run state
  current_stage : ℕ
  catching_up : Bool
  times_revived : ℕ
  revive_log : List ℕ
  enrage_log : List ℚ
  trickster_charges : ℕ
  crippling_on_target : ℕ
  empowered_regen : ℕ
  attack_queue : List AtkKind
  -- build levels used by the embedded methods
  tal_death_is_my_companion : ℕ
  tal_life_of_the_hunt : ℕ
  tal_unfair_advantage : ℕ
  tal_impeccable_impacts : ℕ
  tal_call_me_lucky_loot : ℕ
  tal_fires_of_war : ℕ
  tal_thousand_needles : ℕ
  tal_omen_of_decay : ℕ
  tal_crippling_shots : ℕ
  tal_echo_bullets : ℕ
  tal_tricksters_boon : ℕ
  attr_born_for_battle : ℕ
  attr_atlas_protocol : ℕ
  attr_weakspot_analysis : ℕ
  attr_helltouch_barrier : ℕ
  attr_lifedrain_inhalers : ℕ
  attr_dance_of_dashes : ℕ
  attr_vectid_elixir : ℕ
  attr_timeless_mastery : ℕ
  attr_deal_with_death : ℕ
  attr_cycle_of_death : ℕ
  gem_attraction_node3 : ℕ
  ins_i60 : ℕ
  mods_trample : Bool
  -- statistics counters
  total_kills : ℕ
  total_attacks : ℕ
  total_damage : ℚ
  total_taken : ℚ
  total_regen : ℚ
  total_attacks_suffered : ℕ
  total_lifesteal : ℚ
  total_evades : ℕ
  total_mitigated : ℚ
  total_effect_procs : ℕ
  total_stuntime_inflicted : ℚ
  total_loot : ℚ
  total_crits : ℕ
  total_extra_from_crits : ℚ
  total_helltouch : ℚ
  total_loth : ℚ
  total_potion : ℚ
  total_inhaler : ℚ
  total_multistrikes : ℕ
  total_ms_extra_damage : ℚ
  total_decay_damage : ℚ
  total_cripple_extra_damage : ℚ
  total_trickster_evades : ℕ
  total_echo : ℕ

namespace Hunter

/-- `Hunter.missing_hp` property. -/
def missing_hp (h : Hunter) : ℚ := h.max_hp - h.hp

/-- `Hunter.missing_hp_pct` property: `round((1 - hp / max_hp) * 100, 0)`. -/
def missing_hp_pct (h : Hunter) : ℚ := round0 ((1 - h.hp / h.max_hp) * 100)

/-- `Hunter.is_dead`: `hp <= 0`. -/
def is_dead (h : Hunter) : Prop := h.hp ≤ 0

instance (h : Hunter) : Decidable h.is_dead := by unfold is_dead; infer_instance

/-- The stage test `current_stage % 100 == 0 and current_stage > 0` guarding
the boss-stage-only stat modifiers. -/
def bossStage (h : Hunter) : Prop := h.current_stage % 100 = 0 ∧ 0 < h.current_stage

instance (h : Hunter) : Decidable h.bossStage := by unfold bossStage; infer_instance

/-- The catch-up multiplier applied while `catching_up` holds. -/
def cuFactor (h : Hunter) : ℚ := if h.catching_up then h.catchupFactor else 1

/-- `Borge.power` getter (`hunters.py` 817-828). -/
def borgePower (h : Hunter) : ℚ :=
  h.powerRaw * (1 + h.missing_hp_pct * h.attr_born_for_battle * 0.001) * h.cuFactor

/-- `Ozzy.power` getter (`hunters.py` 1335-1346). -/
def ozzyPower (h : Hunter) : ℚ :=
  h.powerRaw * (1 + h.attr_deal_with_death * 0.02 * h.times_revived) * h.cuFactor

/-- The `power` accessor, dispatched by archetype. -/
def power (h : Hunter) : ℚ :=
  match h.kind with
  | .borge => h.borgePower
  | .ozzy => h.ozzyPower

/-- `Borge.damage_reduction` getter (`hunters.py` 834-841). -/
def borgeDR (h : Hunter) : ℚ :=
  if h.bossStage then h.drRaw + h.attr_atlas_protocol * 0.007 else h.drRaw

/-- `Ozzy.damage_reduction` getter (`hunters.py` 1352-1359). -/
def ozzyDR (h : Hunter) : ℚ :=
  h.drRaw + h.attr_deal_with_death * 0.016 * h.times_revived

/-- The `damage_reduction` accessor, dispatched by archetype. -/
def damage_reduction (h : Hunter) : ℚ :=
  match h.kind with
  | .borge => h.borgeDR
  | .ozzy => h.ozzyDR

/-- `Borge.effect_chance` getter (`hunters.py` 847-854); Ozzy's
`effect_chance` is a plain attribute. -/
def effect_chance (h : Hunter) : ℚ :=
  match h.kind with
  | .borge => if h.bossStage then h.effectRaw + h.attr_atlas_protocol * 0.014 else h.effectRaw
  | .ozzy => h.effectRaw

/-- `Borge.special_chance` (`hunters.py` 860-867) / `Ozzy.special_chance`
(`hunters.py` 1365-1372) getters. -/
def special_chance (h : Hunter) : ℚ :=
  match h.kind with
  | .borge => if h.bossStage then h.specialChanceRaw + h.attr_atlas_protocol * 0.025
      else h.specialChanceRaw
  | .ozzy => h.specialChanceRaw + h.times_revived * h.attr_cycle_of_death * 0.023

/-- `special_damage`: plain attribute for Borge, getter with Cycle of Death
for Ozzy (`hunters.py` 1378-1385). -/
def special_damage (h : Hunter) : ℚ :=
  match h.kind with
  | .borge => h.specialDamageRaw
  | .ozzy => h.specialDamageRaw + h.times_revived * h.attr_cycle_of_death * 0.02

/-- The value part of `Borge.speed` (`hunters.py` 873-884): atlas-protocol
modifier on boss stages, divided by the catch-up factor, minus the pending
Fires of War bonus. -/
def borgeSpeedVal (h : Hunter) : ℚ :=
  ((if h.bossStage then h.speedRaw * (1 - h.attr_atlas_protocol * 0.04) else h.speedRaw)
    / h.cuFactor) - h.fires_of_war

/-- `Ozzy.speed` getter (`hunters.py` 1391-1401): pure. -/
def ozzySpeedVal (h : Hunter) : ℚ := h.speedRaw / h.cuFactor

/-- The `speed` accessor as an explicit state transition: reading Borge's
speed consumes (zeroes) the Fires of War bonus; Ozzy's read is pure. -/
def speedRead (h : Hunter) : ℚ × Hunter :=
  match h.kind with
  | .borge => (h.borgeSpeedVal, { h with fires_of_war := 0 })
  | .ozzy => (h.ozzySpeedVal, h)

/-- The recognized heal source tags of `Hunter.heal_hp`. -/
inductive HealSource : Type
  | regen
  | steal
  | loth
  | potion
  deriving DecidableEq, Repr

/-- The statistics-bucket dispatch of `Hunter.heal_hp` (`hunters.py`
219-240) on a recognized source: clamp to missing hp and tally the
effective heal into the counter named by the source. -/
def heal_core (h : Hunter) (value : ℚ) (source : HealSource) : Hunter :=
  let effective_heal := min value h.missing_hp
  let h' := { h with hp := h.hp + effective_heal }
  match source with
  | .regen => { h' with total_regen := h'.total_regen + effective_heal }
  | .steal => { h' with total_lifesteal := h'.total_lifesteal + effective_heal }
  | .loth => { h' with total_loth := h'.total_loth + effective_heal }
  | .potion => { h' with total_potion := h'.total_potion + effective_heal }

/-- Python's `str.lower()` (character-wise, which coincides with it on the
ASCII tags compared here). -/
def pyLower (s : String) : String := String.mk (s.data.map Char.toLower)

/-- The `match source.lower()` of `Hunter.heal_hp`, written as the
decision chain the pattern match performs. -/
def parseHealSource (source : String) : Option HealSource :=
  if pyLower source = "regen" then some .regen
  else if pyLower source = "steal" then some .steal
  else if pyLower source = "loth" then some .loth
  else if pyLower source = "potion" then some .potion
  else none

/-- `Hunter.heal_hp(value, source)` (`hunters.py` 219-240): heals
`min(value, missing_hp)`, tallies the effective heal into the counter for
the source tag, and raises `ValueError` on an unknown tag. -/
def heal_hp (h : Hunter) (value : ℚ) (source : String) : Except String Hunter :=
  match parseHealSource source with
  | some src => .ok (heal_core h value src)
  | none => .error ("Unknown heal source: " ++ source)

/-- `Hunter.on_death` (`hunters.py` 288-298): if a Death is my Companion
charge remains, revive at 80% max hp, log the stage, count the revive;
otherwise the hunter stays dead. -/
def on_death (h : Hunter) : Hunter :=
  if h.times_revived < h.tal_death_is_my_companion then
    { h with
      hp := h.max_hp * 0.8
      revive_log := h.revive_log ++ [h.current_stage]
      times_revived := h.times_revived + 1 }
  else
    h

/-- `Hunter.receive_damage` (`hunters.py` 198-217).  `r` is the
`random.random()` value drawn at entry for the evade roll.  Returns the
mitigated damage dealt (0 on evade) and the updated hunter. -/
def receive_damage (h : Hunter) (damage : ℚ) (r : ℚ) : ℚ × Hunter :=
  if r < h.evade_chance then
    (0, { h with total_evades := h.total_evades + 1 })
  else
    let mitigated_damage := damage * (1 - h.damage_reduction)
    let h1 := { h with
      hp := h.hp - mitigated_damage
      total_taken := h.total_taken + mitigated_damage
      total_mitigated := h.total_mitigated + (damage - mitigated_damage)
      total_attacks_suffered := h.total_attacks_suffered + 1 }
    (mitigated_damage, if h1.is_dead then h1.on_death else h1)

end Hunter

/-!
## Enemy state

`sim.py` drives `Enemy`/`Boss` objects through `queue_initial_attack`,
`attack`, `attack_special`, `speed`, `speed2`, `regen_hp`, `stun` and
`is_dead`.  The revision of `units.py` under `src/` does not contain the
classes with this interface (its `Boss.__init__` does not even accept
`sim.py`'s 4-argument constructor call); the pieces that are present in
`src/units.py` (`Unit.receive_damage`, `Unit.stun`, `Crit_Unit.attack`) are
embedded from that source, and the rest is modelled from the spec. -/
structure EState : Type where
  hp : ℚ
  max_hp : ℚ
  power : ℚ
  speed : ℚ
  speed2 : ℚ
  regen : ℚ
  special_chance : ℚ
  special_damage : ℚ
  stun_duration : ℚ
  isBoss : Bool
  total_damage : ℚ
  total_crits : ℕ

namespace EState

/-- `Unit.is_dead` (`units.py` 91-97): `hp <= 0`. -/
def is_dead (e : EState) : Prop := e.hp ≤ 0

instance (e : EState) : Decidable e.is_dead := by unfold is_dead; infer_instance

/-- `Unit.receive_damage` (`units.py` 43-53): subtract the damage and clear
any active stun. -/
def receive_damage (e : EState) (damage : ℚ) : EState :=
  { e with hp := e.hp - damage, stun_duration := 0 }

/-- `Unit.stun` (`units.py` 83-89): stun durations accumulate. -/
def stun (e : EState) (duration : ℚ) : EState :=
  { e with stun_duration := e.stun_duration + duration }

/-- Modelled from the spec: the per-tick enemy regen of the missing
`Enemy.regen_hp` — "regen ticks fire exactly once per whole time unit";
heals are clamped at max hp. -/
def regen_tick (e : EState) : EState :=
  { e with hp := min (e.hp + e.regen) e.max_hp }

end EState

/-!
## Hunter combat methods (`hunters.py`)
-/

namespace Hunter

/-- `Hunter.compute_loot` (`hunters.py` 263-278). -/
def compute_loot (h : Hunter) : ℚ :=
  let stage_mult : ℚ := (1.05 : ℚ) ^ (h.current_stage + 1) * (if 101 ≤ h.current_stage then 5 else 1)
  match h.kind with
  | .borge =>
    let base_loot : ℚ := if h.current_stage ≠ 100 then 1 else (700 + 500 + 60 + 50)
    let timeless_mastery : ℚ := 1 + h.attr_timeless_mastery * 0.14
    let additional_multipliers : ℚ := 1 + h.ins_i60 * 0.03
    base_loot * 0.01 * stage_mult * timeless_mastery * additional_multipliers
  | .ozzy =>
    let base_loot : ℚ := if h.current_stage ≠ 100 then 1 else (400 + 300 + 60 + 50)
    let timeless_mastery : ℚ := 1 + h.attr_timeless_mastery * 0.16
    base_loot * 0.01 * stage_mult * timeless_mastery * 1

/-- `Hunter.on_kill` (`hunters.py` 242-251): loot with a possible Call Me
Lucky Loot proc (never rolled on boss stages or stage 0 — Python's `and`
short-circuits before `random.random()`), then the attraction gem
multiplier. -/
def on_kill_base (h : Hunter) (rng : Rng) : Hunter × Rng :=
  let loot := h.compute_loot
  let lhr :=
    if h.current_stage % 100 ≠ 0 ∧ 0 < h.current_stage then
      let (r, rng) := rng.next
      if r < h.effect_chance ∧ h.tal_call_me_lucky_loot ≠ 0 then
        (loot * (1 + h.tal_call_me_lucky_loot * 0.2),
          { h with total_effect_procs := h.total_effect_procs + 1 }, rng)
      else
        (loot, h, rng)
    else
      (loot, h, rng)
  let loot := lhr.1 * (1 + 0.25 * lhr.2.1.gem_attraction_node3)
  ({ lhr.2.1 with total_loot := lhr.2.1.total_loot + loot }, lhr.2.2)

/-- `Borge.on_kill` (`hunters.py` 748-757): base kill handling, then an
Unfair Advantage roll (the `random.random()` is always drawn; the talent is
checked after). -/
def borgeOnKill (h : Hunter) (rng : Rng) : Hunter × Rng :=
  let h := (Hunter.on_kill_base h rng).1
  let rng := (Hunter.on_kill_base h rng).2
  let (r, rng) := rng.next
  if r < h.effect_chance ∧ h.tal_unfair_advantage ≠ 0 then
    let potion_healing := h.max_hp * (h.tal_unfair_advantage * 0.02)
    let h := heal_core h potion_healing .potion
    let h := { h with
      total_potion := h.total_potion + potion_healing
      total_effect_procs := h.total_effect_procs + 1 }
    (h, rng)
  else
    (h, rng)

/-- `Ozzy.on_kill` (`hunters.py` 1294-1305): base kill handling, then an
Unfair Advantage roll which also empowers the next 5 regen ticks (Vectid
Elixir). -/
def ozzyOnKill (h : Hunter) (rng : Rng) : Hunter × Rng :=
  let h := (Hunter.on_kill_base h rng).1
  let rng := (Hunter.on_kill_base h rng).2
  let (r, rng) := rng.next
  if r < h.effect_chance ∧ h.tal_unfair_advantage ≠ 0 then
    let potion_healing := h.max_hp * (h.tal_unfair_advantage * 0.02)
    let h := heal_core h potion_healing .potion
    let h := { h with
      total_potion := h.total_potion + potion_healing
      total_effect_procs := h.total_effect_procs + 1
      empowered_regen := h.empowered_regen + 5 }
    (h, rng)
  else
    (h, rng)

/-- `on_kill`, dispatched by archetype. -/
def on_kill (h : Hunter) (rng : Rng) : Hunter × Rng :=
  match h.kind with
  | .borge => h.borgeOnKill rng
  | .ozzy => h.ozzyOnKill rng

/-- `Borge.apply_fow` (`hunters.py` 790-794). -/
def apply_fow (h : Hunter) : Hunter :=
  { h with fires_of_war := h.tal_fires_of_war * 0.1 }

/-- `Borge.attack` (`hunters.py` 685-718).  Returns the updated hunter and
enemy, the advanced random stream, and the events pushed onto the
simulation queue (in push order). -/
def borgeAttack (h : Hunter) (e : EState) (rng : Rng) :
    Hunter × EState × Rng × List Event :=
  let (r1, rng) := rng.next
  let (damage, h) :=
    if r1 < h.special_chance then
      (h.power * h.special_damage,
        { h with
          total_crits := h.total_crits + 1
          total_extra_from_crits := h.total_extra_from_crits + (h.power * h.special_damage - h.power) })
    else
      (h.power, h)
  let e := e.receive_damage damage
  let h := { h with
    total_damage := h.total_damage + damage
    total_attacks := h.total_attacks + 1 }
  -- on_attack() effects
  let h := heal_core h (damage * h.lifesteal) .steal
  let (r2, rng) := rng.next
  let h :=
    if r2 < h.effect_chance ∧ h.tal_life_of_the_hunt ≠ 0 then
      let LotH_healing := damage * h.tal_life_of_the_hunt * 0.06
      let h := heal_core h LotH_healing .loth
      { h with
        total_loth := h.total_loth + LotH_healing
        total_effect_procs := h.total_effect_procs + 1 }
    else h
  let (r3, rng) := rng.next
  let (h, pushes) :=
    if r3 < h.effect_chance ∧ h.tal_impeccable_impacts ≠ 0 then
      ({ h with total_effect_procs := h.total_effect_procs + 1 }, [Event.mk 0 0 .stun])
    else (h, [])
  let (r4, rng) := rng.next
  let h :=
    if r4 < h.effect_chance ∧ h.tal_fires_of_war ≠ 0 then
      { h.apply_fow with total_effect_procs := h.total_effect_procs + 1 }
    else h
  (h, e, rng, pushes)

/-- `Ozzy.attack` (`hunters.py` 1191-1262): a fresh attack rolls the
Trickster's Boon / Multi-Strike / Thousand Needles / Echo Bullets procs and
deals base power; a triggered attack dequeues its tag instead.  Omen of
Decay and Crippling Shots extra damage apply to every attack, lifesteal
only to the base damage, and a kill triggers `on_kill`. -/
def ozzyAttack (h : Hunter) (e : EState) (rng : Rng) :
    Hunter × EState × Rng × List Event :=
  let core :=
    match h.attack_queue with
    | [] =>
      let (r1, rng) := rng.next
      let h :=
        if r1 < h.effect_chance / 2 ∧ h.tal_tricksters_boon ≠ 0 then
          { h with
            trickster_charges := h.trickster_charges + 1
            total_effect_procs := h.total_effect_procs + 1 }
        else h
      let (r2, rng) := rng.next
      let msProc : Bool := decide (r2 < h.special_chance)
      let h :=
        if msProc then { h with attack_queue := h.attack_queue ++ [AtkKind.ms] } else h
      let (r3, rng) := rng.next
      let needlesProc : Bool := decide (r3 < h.effect_chance ∧ h.tal_thousand_needles ≠ 0)
      let h :=
        if needlesProc then { h with total_effect_procs := h.total_effect_procs + 1 } else h
      let (r4, rng) := rng.next
      let echoProc : Bool := decide (r4 < h.effect_chance / 2 ∧ h.tal_echo_bullets ≠ 0)
      let h :=
        if echoProc then { h with attack_queue := h.attack_queue ++ [AtkKind.echo] } else h
      let pushes : List Event :=
        (if msProc then [Event.mk 0 1 .hunterSpecial] else []) ++
        (if needlesProc then [Event.mk 0 0 .stun] else []) ++
        (if echoProc then [Event.mk 0 2 .hunterSpecial] else [])
      (h.power, false, { h with total_attacks := h.total_attacks + 1 }, rng, pushes)
    | atk_type :: restQueue =>
      let h := { h with attack_queue := restQueue }
      match atk_type with
      | .ms =>
        let damage := h.power * h.special_damage
        (damage, true,
          { h with
            total_ms_extra_damage := h.total_ms_extra_damage + damage
            total_multistrikes := h.total_multistrikes + 1 }, rng, [])
      | .echo =>
        let (r, rng) := rng.next
        let echoMsProc : Bool := decide (r < h.special_chance)
        let h :=
          if echoMsProc then { h with attack_queue := h.attack_queue ++ [AtkKind.echoMs] } else h
        let pushes : List Event := if echoMsProc then [Event.mk 0 3 .hunterSpecial] else []
        let damage := h.power * (h.tal_echo_bullets * 0.05)
        (damage, true, { h with total_echo := h.total_echo + 1 }, rng, pushes)
      | .echoMs =>
        let damage := h.power * h.special_damage
        (damage, true,
          { h with
            total_ms_extra_damage := h.total_ms_extra_damage + damage
            total_multistrikes := h.total_multistrikes + 1 }, rng, [])
  let damage := core.1
  let atkTriggered := core.2.1
  let h := core.2.2.1
  let rng := core.2.2.2.1
  let pushes := core.2.2.2.2
  -- omen of decay
  let omen_effect : ℚ := if h.bossStage then 0.1 else 1
  let omen_damage := e.hp * (h.tal_omen_of_decay * 0.008) * omen_effect
  let omen_final := damage + omen_damage
  -- crippling shots
  let cripple_damage := omen_final * (1 + h.crippling_on_target * 0.03)
  let h := { h with crippling_on_target := 0 }
  let e := e.receive_damage cripple_damage
  let h := { h with
    total_decay_damage := h.total_decay_damage + omen_damage
    total_cripple_extra_damage := h.total_cripple_extra_damage + (cripple_damage - omen_final) }
  let h := if atkTriggered then h else { h with total_damage := h.total_damage + cripple_damage }
  -- on_attack() effects
  let h := heal_core h (damage * h.lifesteal) .steal
  let (r5, rng) := rng.next
  let h :=
    if r5 < h.effect_chance ∧ h.tal_crippling_shots ≠ 0 then
      { h with
        crippling_on_target := h.crippling_on_target + h.tal_crippling_shots
        total_effect_procs := h.total_effect_procs + 1 }
    else h
  let hr : Hunter × Rng :=
    if e.is_dead then ((Hunter.on_kill h rng).1, (Hunter.on_kill h rng).2) else (h, rng)
  (hr.1, e, hr.2, pushes)

/-- `attack`, dispatched by archetype (the scheduler calls
`hunter.attack(enemy)` for both the `'hunter'` and `'hunter_special'`
events). -/
def attack (h : Hunter) (e : EState) (rng : Rng) : Hunter × EState × Rng × List Event :=
  match h.kind with
  | .borge => borgeAttack h e rng
  | .ozzy => ozzyAttack h e rng

/-- `Borge.receive_damage` (`hunters.py` 720-737): Weakspot Analysis
reduces crit damage before the base resolution; surviving unevaded damage
reflects Helltouch Barrier damage back at the attacker (a tenth of it on
boss stages). -/
def borgeReceive (h : Hunter) (attacker : EState) (damage : ℚ) (is_crit : Bool) (rng : Rng) :
    Hunter × EState × Rng :=
  let (r, rng) := rng.next
  let pre := if is_crit then damage * (1 - h.attr_weakspot_analysis * 0.11) else damage
  let fd := Hunter.receive_damage h pre r
  if ¬ fd.2.is_dead ∧ 0 < fd.1 then
    let helltouch_effect : ℚ := if fd.2.bossStage then 0.1 else 1
    let reflected_damage := fd.1 * fd.2.attr_helltouch_barrier * 0.08 * helltouch_effect
    let h := { fd.2 with total_helltouch := fd.2.total_helltouch + reflected_damage }
    (h, attacker.receive_damage reflected_damage, rng)
  else
    (fd.2, attacker, rng)

/-- `Ozzy.receive_damage` (`hunters.py` 1264-1282): a trickster charge
absorbs the hit outright (no rolls); otherwise base resolution, and a crit
may grant a charge back through Dance of Dashes (rolled only when the
attribute is nonzero — Python's `and` short-circuits). -/
def ozzyReceive (h : Hunter) (damage : ℚ) (is_crit : Bool) (rng : Rng) : Hunter × Rng :=
  if h.trickster_charges ≠ 0 then
    ({ h with
        trickster_charges := h.trickster_charges - 1
        total_trickster_evades := h.total_trickster_evades + 1 }, rng)
  else
    let (r, rng) := rng.next
    let h := (Hunter.receive_damage h damage r).2
    if is_crit then
      if h.attr_dance_of_dashes ≠ 0 then
        let (r2, rng) := rng.next
        if r2 < h.attr_dance_of_dashes * 0.15 then
          ({ h with
              trickster_charges := h.trickster_charges + 1
              total_effect_procs := h.total_effect_procs + 1 }, rng)
        else (h, rng)
      else (h, rng)
    else (h, rng)

/-- The hunter-side damage reception dispatched by archetype, as invoked by
the enemy's attack; Ozzy ignores the attacker (no reflection). -/
def receiveFrom (h : Hunter) (attacker : EState) (damage : ℚ) (is_crit : Bool) (rng : Rng) :
    Hunter × EState × Rng :=
  match h.kind with
  | .borge => borgeReceive h attacker damage is_crit rng
  | .ozzy =>
    let (h, rng) := ozzyReceive h damage is_crit rng
    (h, attacker, rng)

/-- `Borge.regen_hp` (`hunters.py` 739-745). -/
def borgeRegen (h : Hunter) : Hunter :=
  let inhaler_contrib := (h.attr_lifedrain_inhalers * 0.0008) * h.missing_hp
  let regen_value := h.regen + inhaler_contrib
  let h := { h with total_inhaler := h.total_inhaler + inhaler_contrib }
  heal_core h regen_value .regen

/-- `Ozzy.regen_hp` (`hunters.py` 1284-1291). -/
def ozzyRegen (h : Hunter) : Hunter :=
  if 0 < h.empowered_regen then
    let regen_value := h.regen * (1 + h.attr_vectid_elixir * 0.15)
    heal_core { h with empowered_regen := h.empowered_regen - 1 } regen_value .regen
  else
    heal_core h h.regen .regen

/-- `regen_hp`, dispatched by archetype. -/
def regen_hp (h : Hunter) : Hunter :=
  match h.kind with
  | .borge => h.borgeRegen
  | .ozzy => h.ozzyRegen

/-- `Borge.apply_stun` (`hunters.py` 759-768) and `Ozzy.apply_stun`
(`hunters.py` 1307-1316): stun for `talent_level * (0.1 | 0.05)` seconds,
halved against bosses; stun time accumulates on the enemy
(`Unit.stun`, `units.py` 83-89). -/
def apply_stun (h : Hunter) (e : EState) (is_boss : Bool) : Hunter × EState :=
  let stun_effect : ℚ := if is_boss then 0.5 else 1
  let stun_duration :=
    match h.kind with
    | .borge => h.tal_impeccable_impacts * 0.1 * stun_effect
    | .ozzy => h.tal_thousand_needles * 0.05 * stun_effect
  ({ h with total_stuntime_inflicted := h.total_stuntime_inflicted + stun_duration },
    e.stun stun_duration)

/-- `Hunter.complete_stage` (`hunters.py` 253-261). -/
def complete_stage (h : Hunter) : Hunter :=
  let h := { h with current_stage := h.current_stage + 1 }
  if 100 ≤ h.current_stage then { h with catching_up := false } else h

end Hunter

namespace EState

/-- The enemy's primary attack, embedded from `Crit_Unit.attack`
(`units.py` 191-205): roll the crit, deal `power * (special_damage | 1)`,
and hand the damage to the hunter's `receive_damage`.  The crit flag passed
to the hunter's receiver is glue belonging to the `Enemy` revision missing
from `src/` (modelled from the spec: "on-crit defensive modifiers apply
before reduction" requires the receiver to know it). -/
def attack (e : EState) (h : Hunter) (rng : Rng) : EState × Hunter × Rng :=
  let (r, rng) := rng.next
  let dce :=
    if r < e.special_chance then
      (e.power * e.special_damage, true, { e with total_crits := e.total_crits + 1 })
    else
      (e.power, false, e)
  let e := { dce.2.2 with total_damage := dce.2.2.total_damage + dce.1 }
  let hr := h.receiveFrom e dce.1 dce.2.1 rng
  (hr.2.1, hr.1, hr.2.2)

/-- Modelled from the spec: the missing boss class's `attack_special` —
"bosses: a second, independently-paced 'special' attack track" — resolved
like the primary attack. -/
def attack_special (e : EState) (h : Hunter) (rng : Rng) : EState × Hunter × Rng :=
  attack e h rng

end EState

/-!
## The event scheduler (`Simulation.simulate_combat`, `sim.py` 369-433)
-/

open PyHeap

/-- Modelled from the spec: the missing `Enemy.queue_initial_attack` called
at `sim.py` 402 — queue the enemy's first primary attack one attack period
after the current (integer regen-clock) time. -/
def queue_initial_attack (q : List Event) (now : ℚ) (e : EState) : List Event :=
  heappush q ⟨round3 (now + e.speed), 2, .enemy⟩

/-- The full state of one in-progress combat: the hunter, the enemy
currently being fought, the event queue, `Simulation.elapsed_time`,
`Simulation.current_stage`, and the random stream. -/
structure SimState : Type where
  hunter : Hunter
  enemy : EState
  queue : List Event
  elapsed : ℤ
  stage : ℕ
  rng : Rng

namespace SimState

/-- The `'hunter'` event (`sim.py` 408-410): the hunter attacks, then its
next primary attack is queued at `round(prev_time + hunter.speed, 3)` with
tie-break priority 1.  Reading `hunter.speed` consumes the Fires of War
bonus (`Borge.speed` getter). -/
def stepHunter (s : SimState) (prevTime : ℚ) : SimState :=
  let ar := s.hunter.attack s.enemy s.rng
  let q := ar.2.2.2.foldl heappush s.queue
  let sp := (ar.1).speedRead
  { s with
    hunter := sp.2
    enemy := ar.2.1
    rng := ar.2.2.1
    queue := heappush q ⟨round3 (prevTime + sp.1), 1, .hunter⟩ }

/-- The `'enemy'` event (`sim.py` 411-414): the enemy attacks; if it is
still alive (it can die to reflected damage) its next primary attack is
queued at `round(prev_time + enemy.speed, 3)` with priority 2. -/
def stepEnemy (s : SimState) (prevTime : ℚ) : SimState :=
  let ehr := s.enemy.attack s.hunter s.rng
  let q :=
    if ¬ ehr.1.is_dead then
      heappush s.queue ⟨round3 (prevTime + ehr.1.speed), 2, .enemy⟩
    else s.queue
  { s with hunter := ehr.2.1, enemy := ehr.1, rng := ehr.2.2, queue := q }

/-- The `'stun'` event (`sim.py` 415-416): `hunter.apply_stun(enemy,
isinstance(enemy, Boss))` accumulates the stun on the enemy; what the stun
does to the enemy's pending attack lives in the `Enemy` class missing from
`src/`.  Modelled from the spec: "find the currently-queued primary event
for the stunned actor, remove it, re-insert at `currentTimestamp +
stunDuration` (later stuns are additive delays, not replacements)" — the
accumulated `stun_duration` (`Unit.stun`, `units.py` 83-89) makes repeated
stuns during one wind-up additive. -/
def stepStun (s : SimState) (now : ℚ) : SimState :=
  let he := s.hunter.apply_stun s.enemy s.enemy.isBoss
  let q := heappush (s.queue.eraseP (fun ev => ev.act == .enemy))
    ⟨now + he.2.stun_duration, 2, .enemy⟩
  { s with hunter := he.1, enemy := he.2, queue := q }

/-- The `'hunter_special'` event (`sim.py` 417-418): a triggered sub-attack;
`hunter.attack(enemy)` dequeues and resolves it, and nothing is
rescheduled. -/
def stepHunterSpecial (s : SimState) : SimState :=
  let ar := s.hunter.attack s.enemy s.rng
  { s with
    hunter := ar.1
    enemy := ar.2.1
    rng := ar.2.2.1
    queue := ar.2.2.2.foldl heappush s.queue }

/-- The `'enemy_special'` event (`sim.py` 419-422): the boss's second
attack track; reschedules at `round(prev_time + enemy.speed2, 3)` with
priority 2 while the boss lives. -/
def stepEnemySpecial (s : SimState) (prevTime : ℚ) : SimState :=
  let ehr := s.enemy.attack_special s.hunter s.rng
  let q :=
    if ¬ ehr.1.is_dead then
      heappush s.queue ⟨round3 (prevTime + ehr.1.speed2), 2, .enemySpecial⟩
    else s.queue
  { s with hunter := ehr.2.1, enemy := ehr.1, rng := ehr.2.2, queue := q }

/-- The `'regen'` event (`sim.py` 423-427): both combatants regenerate,
the elapsed-time clock advances by one, and the next tick is queued at the
new clock value with priority 3. -/
def stepRegen (s : SimState) : SimState :=
  let h := s.hunter.regen_hp
  let e := s.enemy.regen_tick
  let elapsed := s.elapsed + 1
  { s with
    hunter := h
    enemy := e
    elapsed := elapsed
    queue := heappush s.queue ⟨(elapsed : ℚ), 3, .regen⟩ }

/-- One iteration of the combat loop body (`sim.py` 404-429): pop the
earliest event and dispatch on its action kind.  `none` models the
`IndexError` of popping an empty queue (which cannot happen while the
invariants of §3 hold). -/
def combatStep (s : SimState) : Option SimState :=
  match heappop s.queue with
  | none => none
  | some (ev, q) =>
    let s := { s with queue := q }
    some (match ev.act with
      | .hunter => s.stepHunter ev.time
      | .enemy => s.stepEnemy ev.time
      | .stun => s.stepStun ev.time
      | .hunterSpecial => s.stepHunterSpecial
      | .enemySpecial => s.stepEnemySpecial ev.time
      | .regen => s.stepRegen)

/-- The per-enemy combat loop (`sim.py` 404-429):
`while not enemy.is_dead() and not hunter.is_dead()`.  Fuel-indexed;
`none` means the loop was still running after `fuel` iterations. -/
def combatLoop : ℕ → SimState → Option SimState
  | 0, s => if s.enemy.is_dead ∨ s.hunter.is_dead then some s else none
  | fuel + 1, s =>
    if s.enemy.is_dead ∨ s.hunter.is_dead then some s
    else
      match s.combatStep with
      | none => none
      | some s' => combatLoop fuel s'

/-- The sequence of events `combatStep` pops, in dispatch order: the
observable pop order of the scheduler over the first `n` iterations. -/
def popTrace : ℕ → SimState → List Event
  | 0, _ => []
  | n + 1, s =>
    match PyHeap.heappop s.queue with
    | none => []
    | some (ev, _) =>
      match s.combatStep with
      | none => []
      | some s' => ev :: popTrace n s'

/-- Pops are in ascending `(timestamp, tie-break priority)` order. -/
def PopsAscending (l : List Event) : Prop :=
  List.Chain' (fun a b => a.time < b.time ∨ (a.time = b.time ∧ a.priority ≤ b.priority)) l

end SimState

/-!
## The outer run structure (`Simulation.simulate_combat` outer loops and
`Simulation.run`)
-/

/-- Python `int()` on a rational: truncation toward zero. -/
def pyInt (x : ℚ) : ℤ := if 0 ≤ x then ⌊x⌋ else ⌈x⌉

/-- Kill (set hp to 0) up to `k` of the still-alive enemies, in list
order — the `for i in alive_index[:trample_power]` loop of
`Borge.apply_trample`; returns the kill count. -/
def killFirstAlive : ℕ → List EState → ℕ × List EState
  | _, [] => (0, [])
  | 0, es => (0, es)
  | k + 1, e :: es =>
    if e.is_dead then
      let (n, es') := killFirstAlive (k + 1) es
      (n, e :: es')
    else
      let (n, es') := killFirstAlive k es
      (n + 1, { e with hp := 0 } :: es')

/-- `Borge.apply_trample` (`hunters.py` 796-814): if anything is alive and
`min(int(power / enemies[0].max_hp), 10) > 1`, kill that many of the first
alive enemies (the missing `Enemy.kill` is modelled as `hp := 0`). -/
def apply_trample (h : Hunter) (enemies : List EState) : ℕ × List EState :=
  match enemies with
  | [] => (0, [])
  | e0 :: _ =>
    if enemies.all (fun e => decide e.is_dead) then (0, enemies)
    else
      let trample_power := min (pyInt (h.power / e0.max_hp)) 10
      if 1 < trample_power then killFirstAlive trample_power.toNat enemies
      else (0, enemies)

/-- Outcome of the fuel-indexed run loops: still running when the fuel ran
out, returned normally (`return` at `sim.py` 430-431), or reached the
`raise ValueError` at `sim.py` 433 (unreachable in practice). -/
inductive RunRes : Type
  | fuelOut
  | finished (s : SimState)
  | stageCleared (s : SimState)
  | err

/-- The per-wave loop `while self.enemies` (`sim.py` 388-431): trample the
wave if possible, otherwise fight the next enemy with the inner combat
loop; return as soon as the hunter dies.  The stats of freshly spawned
enemies live in the `Enemy`/`Boss` constructors missing from `src/`, so the
spawner is a parameter here. -/
def waveLoop : ℕ → SimState → List EState → RunRes
  | 0, _, _ => .fuelOut
  | fuel + 1, s, enemies =>
    match enemies with
    | [] => .stageCleared s
    | e0 :: rest =>
      let fight : RunRes :=
        let s1 := { s with
          enemy := e0
          queue := queue_initial_attack s.queue (s.elapsed : ℚ) e0 }
        match s1.combatLoop fuel with
        | none => .fuelOut
        | some s2 =>
          if s2.hunter.is_dead then .finished s2
          else waveLoop fuel s2 rest
      if s.hunter.mods_trample ∧ ¬ e0.isBoss then
        let tr := apply_trample s.hunter (e0 :: rest)
        if 0 < tr.1 then
          let h := { s.hunter with
            total_kills := s.hunter.total_kills + tr.1
            total_attacks := s.hunter.total_attacks + 1
            total_damage := s.hunter.total_damage + tr.1 * s.hunter.power }
          waveLoop fuel { s with hunter := h } (tr.2.filter (fun e => ¬ decide e.is_dead))
        else fight
      else fight

/-- `Simulation.complete_stage` (`sim.py` 343-347). -/
def completeStage (s : SimState) : SimState :=
  { s with stage := s.stage + 1, hunter := s.hunter.complete_stage }

/-- The outer stage loop `while not hunter.is_dead()` (`sim.py` 384-433):
spawn the stage's wave (via the supplied spawner), fight it, and advance
the stage; falling out of the loop is the `raise ValueError` branch. -/
def runLoop (spawn : ℕ → List EState) : ℕ → SimState → RunRes
  | 0, _ => .fuelOut
  | fuel + 1, s =>
    if s.hunter.is_dead then .err
    else
      match waveLoop fuel s (spawn s.stage) with
      | .stageCleared s' => runLoop spawn fuel (completeStage s')
      | r => r

/-- The flat result record a completed run produces: `Hunter.get_results`
(`hunters.py` 99-121) with the archetype extensions (`hunters.py` 890-902
and 1407-1421), merged with the simulation's elapsed time
(`Simulation.run`, `sim.py` 360-367). -/
structure RunRecord : Type where
  final_stage : ℕ
  kills : ℕ
  revive_log : List ℕ
  enrage_log : List ℚ
  attacks : ℕ
  damage : ℚ
  damage_taken : ℚ
  regenerated_hp : ℚ
  attacks_suffered : ℕ
  lifesteal : ℚ
  evades : ℕ
  mitigated_damage : ℚ
  effect_procs : ℕ
  total_loot : ℚ
  stun_duration_inflicted : ℚ
  crits : ℕ
  extra_damage_from_crits : ℚ
  helltouch_barrier : ℚ
  life_of_the_hunt_healing : ℚ
  unfair_advantage_healing : ℚ
  multistrikes : ℕ
  extra_damage_from_ms : ℚ
  trickster_evades : ℕ
  decay_damage : ℚ
  extra_damage_from_crippling_strikes : ℚ
  echo_bullets : ℕ
  elapsed_time : ℤ
  deriving DecidableEq

/-- Extract the result record from a finished simulation state. -/
def getResults (s : SimState) : RunRecord where
  final_stage := s.hunter.current_stage
  kills := s.hunter.total_kills
  revive_log := s.hunter.revive_log
  enrage_log := s.hunter.enrage_log
  attacks := s.hunter.total_attacks
  damage := s.hunter.total_damage
  damage_taken := s.hunter.total_taken
  regenerated_hp := s.hunter.total_regen
  attacks_suffered := s.hunter.total_attacks_suffered
  lifesteal := s.hunter.total_lifesteal
  evades := s.hunter.total_evades
  mitigated_damage := s.hunter.total_mitigated
  effect_procs := s.hunter.total_effect_procs
  total_loot := s.hunter.total_loot
  stun_duration_inflicted := s.hunter.total_stuntime_inflicted
  crits := s.hunter.total_crits
  extra_damage_from_crits := s.hunter.total_extra_from_crits
  helltouch_barrier := s.hunter.total_helltouch
  life_of_the_hunt_healing := s.hunter.total_loth
  unfair_advantage_healing := s.hunter.total_potion
  multistrikes := s.hunter.total_multistrikes
  extra_damage_from_ms := s.hunter.total_ms_extra_damage
  trickster_evades := s.hunter.total_trickster_evades
  decay_damage := s.hunter.total_decay_damage
  extra_damage_from_crippling_strikes := s.hunter.total_cripple_extra_damage
  echo_bullets := s.hunter.total_echo
  elapsed_time := s.elapsed

/-!
## An execution of the combat loop as a relation

`Simulation.run` re-runs `simulate_combat` per repetition; determinism of a
run given the random stream is stated over the observable step relation: a
step popped the earliest event and dispatched on its action string.
-/

/-- One observed iteration of the combat-loop body (`sim.py` 404-429) as a
relation between scheduler states. -/
inductive CombatStepR : SimState → SimState → Prop where
  | hunter (s : SimState) (ev : Event) (q : List Event)
      (hpop : PyHeap.heappop s.queue = some (ev, q)) (hact : ev.act = .hunter) :
      CombatStepR s (SimState.stepHunter { s with queue := q } ev.time)
  | enemy (s : SimState) (ev : Event) (q : List Event)
      (hpop : PyHeap.heappop s.queue = some (ev, q)) (hact : ev.act = .enemy) :
      CombatStepR s (SimState.stepEnemy { s with queue := q } ev.time)
  | stun (s : SimState) (ev : Event) (q : List Event)
      (hpop : PyHeap.heappop s.queue = some (ev, q)) (hact : ev.act = .stun) :
      CombatStepR s (SimState.stepStun { s with queue := q } ev.time)
  | hunterSpecial (s : SimState) (ev : Event) (q : List Event)
      (hpop : PyHeap.heappop s.queue = some (ev, q)) (hact : ev.act = .hunterSpecial) :
      CombatStepR s (SimState.stepHunterSpecial { s with queue := q })
  | enemySpecial (s : SimState) (ev : Event) (q : List Event)
      (hpop : PyHeap.heappop s.queue = some (ev, q)) (hact : ev.act = .enemySpecial) :
      CombatStepR s (SimState.stepEnemySpecial { s with queue := q } ev.time)
  | regen (s : SimState) (ev : Event) (q : List Event)
      (hpop : PyHeap.heappop s.queue = some (ev, q)) (hact : ev.act = .regen) :
      CombatStepR s (SimState.stepRegen { s with queue := q })

/-- `n` observed iterations of the combat loop. -/
inductive RunSteps : ℕ → SimState → SimState → Prop where
  | zero (s : SimState) : RunSteps 0 s s
  | succ (n : ℕ) (s s' t : SimState) (h : CombatStepR s s') (hr : RunSteps n s' t) :
      RunSteps (n + 1) s t

/-!
## Queue bookkeeping for the scheduler claims
-/

theorem mem_foldl_heappush (pushes : List Event) (q : List Event) (y : Event)
    (hy : y ∈ pushes.foldl heappush q) : y ∈ q ∨ y ∈ pushes := by
  induction pushes generalizing q with
  | nil => exact Or.inl hy
  | cons p ps ih =>
    rcases ih _ hy with h' | h'
    · rcases PyHeap.mem_heappush _ _ _ h' with h'' | h''
      · exact Or.inl h''
      · exact Or.inr (by simp [h''])
    · exact Or.inr (by simp [h'])

/-- Membership in a conditional list that is empty in the negative branch. -/
theorem mem_ite_nil {α : Type} {c : Prop} [Decidable c] {l : List α} {x : α}
    (hx : x ∈ if c then l else []) : x ∈ l := by
  split at hx
  · exact hx
  · exact absurd hx (List.not_mem_nil x)

/-- The four events the hunters' attack procs push: the stun at tie-break
priority 0 and the chained multistrike / echo / echo-multistrike steps at
priorities 1 / 2 / 3, all at timestamp 0 (`hunters.py` 713, 1207, 1210,
1215, 1230). -/
theorem attack_pushes (h : Hunter) (e : EState) (rng : Rng) :
    ∀ ev ∈ (Hunter.attack h e rng).2.2.2,
      ev = ⟨0, 0, .stun⟩ ∨ ev = ⟨0, 1, .hunterSpecial⟩ ∨
      ev = ⟨0, 2, .hunterSpecial⟩ ∨ ev = ⟨0, 3, .hunterSpecial⟩ := by
  intro ev hev
  unfold Hunter.attack at hev
  rcases hk : h.kind with _ | _ <;> rw [hk] at hev
  · -- Borge: only the Impeccable Impacts stun is ever pushed
    unfold Hunter.borgeAttack at hev
    simp only [Rng.next] at hev
    split_ifs at hev <;> simp_all
  · -- Ozzy
    unfold Hunter.ozzyAttack at hev
    rcases hq : h.attack_queue with _ | ⟨atk, rest⟩ <;> rw [hq] at hev <;>
      simp only [] at hev
    · rcases List.mem_append.mp hev with h1 | h1
      · rcases List.mem_append.mp h1 with h2 | h2
        · exact Or.inr (Or.inl (List.mem_singleton.mp (mem_ite_nil h2)))
        · exact Or.inl (List.mem_singleton.mp (mem_ite_nil h2))
      · exact Or.inr (Or.inr (Or.inl (List.mem_singleton.mp (mem_ite_nil h1))))
    · rcases atk with _ | _ | _ <;> simp only [] at hev
      · exact absurd hev (List.not_mem_nil ev)
      · exact Or.inr (Or.inr (Or.inr (List.mem_singleton.mp (mem_ite_nil hev))))
      · exact absurd hev (List.not_mem_nil ev)

/-!
## Sample states used by the witnesses
-/

/-- A hunter record with every numeric field zeroed (Borge archetype). -/
def baseHunter : Hunter where
  kind := .borge
  hp := 0
  max_hp := 0
  powerRaw := 0
  speedRaw := 0
  drRaw := 0
  effectRaw := 0
  specialChanceRaw := 0
  specialDamageRaw := 0
  evade_chance := 0
  regen := 0
  lifesteal := 0
  fires_of_war := 0
  catchupFactor := 1
  current_stage := 0
  catching_up := true
  times_revived := 0
  revive_log := []
  enrage_log := []
  trickster_charges := 0
  crippling_on_target := 0
  empowered_regen := 0
  attack_queue := []
  tal_death_is_my_companion := 0
  tal_life_of_the_hunt := 0
  tal_unfair_advantage := 0
  tal_impeccable_impacts := 0
  tal_call_me_lucky_loot := 0
  tal_fires_of_war := 0
  tal_thousand_needles := 0
  tal_omen_of_decay := 0
  tal_crippling_shots := 0
  tal_echo_bullets := 0
  tal_tricksters_boon := 0
  attr_born_for_battle := 0
  attr_atlas_protocol := 0
  attr_weakspot_analysis := 0
  attr_helltouch_barrier := 0
  attr_lifedrain_inhalers := 0
  attr_dance_of_dashes := 0
  attr_vectid_elixir := 0
  attr_timeless_mastery := 0
  attr_deal_with_death := 0
  attr_cycle_of_death := 0
  gem_attraction_node3 := 0
  ins_i60 := 0
  mods_trample := false
  total_kills := 0
  total_attacks := 0
  total_damage := 0
  total_taken := 0
  total_regen := 0
  total_attacks_suffered := 0
  total_lifesteal := 0
  total_evades := 0
  total_mitigated := 0
  total_effect_procs := 0
  total_stuntime_inflicted := 0
  total_loot := 0
  total_crits := 0
  total_extra_from_crits := 0
  total_helltouch := 0
  total_loth := 0
  total_potion := 0
  total_inhaler := 0
  total_multistrikes := 0
  total_ms_extra_damage := 0
  total_decay_damage := 0
  total_cripple_extra_damage := 0
  total_trickster_evades := 0
  total_echo := 0

/-- A live Borge with two Death is my Companion charges. -/
def sampleBorge : Hunter :=
  { baseHunter with
    hp := 100, max_hp := 100, powerRaw := 10, speedRaw := 5,
    drRaw := 0.2, evade_chance := 0.1, effectRaw := 0.04,
    specialChanceRaw := 0.05, specialDamageRaw := 1.3, regen := 2,
    tal_death_is_my_companion := 2, tal_fires_of_war := 3 }

/-- A live Ozzy holding a trickster charge. -/
def sampleOzzy : Hunter :=
  { baseHunter with
    kind := .ozzy, hp := 40, max_hp := 50, powerRaw := 4, speedRaw := 4,
    drRaw := 0.1, evade_chance := 0.05, effectRaw := 0.04,
    specialChanceRaw := 0.05, specialDamageRaw := 0.25, regen := 1,
    trickster_charges := 1, attr_dance_of_dashes := 2 }

/-- A constant random stream. -/
def zeroRng : Rng := ⟨fun _ => 0, 0⟩

/-- An Ozzy whose Multi-Strike always procs (`special_chance = 1`). -/
def cexOzzy : Hunter :=
  { baseHunter with
    kind := .ozzy, hp := 50, max_hp := 50, powerRaw := 4, speedRaw := 4,
    specialChanceRaw := 1 }

/-- A sturdy slow opponent for `cexOzzy`. -/
def cexEnemy : EState :=
  { hp := 1000, max_hp := 1000, power := 1, speed := 3, speed2 := 0, regen := 0,
    special_chance := 0, special_damage := 0, stun_duration := 0, isBoss := false,
    total_damage := 0, total_crits := 0 }

/-- A one-event combat state (the regen tick alone is queued). -/
def wsState : SimState :=
  { hunter := baseHunter
    enemy := { hp := 10, max_hp := 10, power := 1, speed := 3, speed2 := 0, regen := 0,
               special_chance := 0, special_damage := 0, stun_duration := 0, isBoss := false,
               total_damage := 0, total_crits := 0 }
    queue := [⟨0, 3, .regen⟩]
    elapsed := 0
    stage := 0
    rng := zeroRng }

/-- The combat state exactly as `simulate_combat` seeds it before the first
pop: the hunter's first attack at `(round(hunter.speed, 3), 1)`, the regen
tick at `(0, 3)`, and the enemy's first attack queued by
`queue_initial_attack` at elapsed time 0. -/
def cexState : SimState :=
  { hunter := cexOzzy
    enemy := cexEnemy
    queue := queue_initial_attack
      (PyHeap.heappush (PyHeap.heappush [] ⟨round3 (Hunter.speedRead cexOzzy).1, 1, .hunter⟩)
        ⟨0, 3, .regen⟩)
      0 cexEnemy
    elapsed := 0
    stage := 0
    rng := zeroRng }

/-- A pacifist immortal Borge: no power, guaranteed evade, no procs, no
regen need (full hp). -/
def cexLoopH : Hunter :=
  { baseHunter with hp := 100, max_hp := 100, evade_chance := 1, speedRaw := 4 }

/-- A healthy enemy for the stalemate. -/
def cexLoopE : EState :=
  { hp := 50, max_hp := 50, power := 5, speed := 3, speed2 := 0, regen := 0,
    special_chance := 0, special_damage := 0, stun_duration := 0, isBoss := false,
    total_damage := 0, total_crits := 0 }

/-- The seeded start of the stalemate fight. -/
def cexLoopState : SimState :=
  { hunter := cexLoopH
    enemy := cexLoopE
    queue := queue_initial_attack
      (PyHeap.heappush (PyHeap.heappush [] ⟨round3 (Hunter.speedRead cexLoopH).1, 1, .hunter⟩)
        ⟨0, 3, .regen⟩)
      0 cexLoopE
    elapsed := 0
    stage := 0
    rng := zeroRng }

/-- The state held by a `finished`/`stageCleared` result, or the default. -/
def RunRes.stateOr (r : RunRes) (d : SimState) : SimState :=
  match r with
  | .finished s => s
  | .stageCleared s => s
  | _ => d

/-- A fragile Borge: one hit of 100 kills it, no revives. -/
def cexDieH : Hunter := { baseHunter with hp := 10, max_hp := 10, speedRaw := 4 }

/-- A one-shot enemy. -/
def cexDieE : EState :=
  { hp := 50, max_hp := 50, power := 100, speed := 3, speed2 := 0, regen := 0,
    special_chance := 0, special_damage := 0, stun_duration := 0, isBoss := false,
    total_damage := 0, total_crits := 0 }

/-- The pre-wave state of the fatal run (the wave loop seeds the enemy and
its initial attack). -/
def cexDieState : SimState :=
  { hunter := cexDieH
    enemy := cexDieE
    queue := []
    elapsed := 0
    stage := 0
    rng := zeroRng }

/-- The hunter-side facts of the stalemate invariant: a full-health Borge
that cannot deal damage, evades everything, and procs nothing. -/
def InvH (h : Hunter) : Prop :=
  h.kind = .borge ∧ h.hp = 100 ∧ h.max_hp = 100 ∧ h.powerRaw = 0 ∧
  h.evade_chance = 1 ∧ h.specialChanceRaw = 0 ∧ h.attr_atlas_protocol = 0 ∧
  h.regen = 0 ∧ h.tal_life_of_the_hunt = 0 ∧ h.tal_impeccable_impacts = 0 ∧
  h.tal_fires_of_war = 0

/-- The enemy-side facts of the stalemate invariant. -/
def InvE (e : EState) : Prop :=
  e.hp = 50 ∧ e.max_hp = 50 ∧ e.special_chance = 0 ∧ e.regen = 0

/-- The stalemate invariant: both combatants keep their hp, the random
stream is the constant-0 stream, and the queue is a nonempty queue of
primary/regen events only. -/
def LoopInv (s : SimState) : Prop :=
  InvH s.hunter ∧ InvE s.enemy ∧ s.rng.f = (fun _ => 0) ∧ s.queue ≠ [] ∧
  (∀ ev ∈ s.queue, ev.act = .hunter ∨ ev.act = .enemy ∨ ev.act = .regen)

/-!
## Claims C6-C10
-/

/-- **C6**: whenever the character's hp reaches 0, `on_death` revives at
exactly `0.8 * max_hp`, appends the current stage to the revive log and
increments the used-revive count iff the revives already used are fewer
than the `death_is_my_companion` level; otherwise the state is unchanged
(terminally dead).  A character with 2 charges driven to hp = 0 three
times revives exactly twice at `0.8 * max_hp` and stays at hp = 0 on the
third death. -/
theorem claim_C6_on_death_revive (h : Hunter) :
    (h.times_revived < h.tal_death_is_my_companion →
      h.on_death = { h with
        hp := h.max_hp * 0.8
        revive_log := h.revive_log ++ [h.current_stage]
        times_revived := h.times_revived + 1 }) ∧
    (¬ h.times_revived < h.tal_death_is_my_companion → h.on_death = h) ∧
    (h.tal_death_is_my_companion = 2 → h.times_revived = 0 →
      (Hunter.on_death { h with hp := 0 }).hp = h.max_hp * 0.8 ∧
      (Hunter.on_death { h with hp := 0 }).times_revived = 1 ∧
      (Hunter.on_death { h with hp := 0 }).revive_log = h.revive_log ++ [h.current_stage] ∧
      (Hunter.on_death { Hunter.on_death { h with hp := 0 } with hp := 0 }).hp
          = h.max_hp * 0.8 ∧
      (Hunter.on_death { Hunter.on_death { h with hp := 0 } with hp := 0 }).times_revived = 2 ∧
      (Hunter.on_death
          { Hunter.on_death { Hunter.on_death { h with hp := 0 } with hp := 0 } with hp := 0 }).hp
          = 0 ∧
      (Hunter.on_death
          { Hunter.on_death { Hunter.on_death { h with hp := 0 } with hp := 0 } with hp := 0 }).times_revived
          = 2) := by
  refine ⟨?_, ?_, ?_⟩
  · intro hlt
    simp [Hunter.on_death, hlt]
  · intro hge
    simp [Hunter.on_death, hge]
  · intro htal hrev
    simp [Hunter.on_death, htal, hrev]

/-- Witness for C6 at a concrete Borge with 2 charges. -/
theorem claim_C6_witness :
    (Hunter.on_death { sampleBorge with hp := 0 }).hp = sampleBorge.max_hp * 0.8 ∧
    (Hunter.on_death
        { Hunter.on_death { Hunter.on_death { sampleBorge with hp := 0 } with hp := 0 } with
          hp := 0 }).times_revived = 2 := by
  have h := (claim_C6_on_death_revive sampleBorge).2.2 (by decide) (by decide)
  exact ⟨h.1, h.2.2.2.2.2.2⟩

/-- **C7**: `heal_hp` increases hp by exactly `min(value, max_hp - hp)` (so
hp never exceeds `max_hp`), adds that effective heal to the statistics
counter matching the (lowercased) source tag, and raises `ValueError`
exactly when the tag is none of `regen`, `steal`, `loth`, `potion`. -/
theorem claim_C7_heal_hp (h : Hunter) (v : ℚ) (source : String)
    (hhp : 0 ≤ h.hp) (hmax : h.hp ≤ h.max_hp) (hv : 0 ≤ v) :
    ((∃ h', Hunter.heal_hp h v source = .ok h') ↔
      Hunter.pyLower source = "regen" ∨ Hunter.pyLower source = "steal" ∨
      Hunter.pyLower source = "loth" ∨ Hunter.pyLower source = "potion") ∧
    (∀ h', Hunter.heal_hp h v source = .ok h' →
      h'.hp = h.hp + min v (h.max_hp - h.hp) ∧
      h.hp ≤ h'.hp ∧ h'.hp ≤ h.max_hp ∧
      (Hunter.pyLower source = "regen" →
        h'.total_regen = h.total_regen + min v (h.max_hp - h.hp)) ∧
      (Hunter.pyLower source = "steal" →
        h'.total_lifesteal = h.total_lifesteal + min v (h.max_hp - h.hp)) ∧
      (Hunter.pyLower source = "loth" →
        h'.total_loth = h.total_loth + min v (h.max_hp - h.hp)) ∧
      (Hunter.pyLower source = "potion" →
        h'.total_potion = h.total_potion + min v (h.max_hp - h.hp))) := by
  have hmin_le : min v (h.max_hp - h.hp) ≤ h.max_hp - h.hp := min_le_right _ _
  have hmin_nonneg : 0 ≤ min v (h.max_hp - h.hp) := le_min hv (by linarith)
  have hcore_hp : ∀ src : Hunter.HealSource,
      (Hunter.heal_core h v src).hp = h.hp + min v (h.max_hp - h.hp) := by
    intro src
    cases src <;> rfl
  have hbounds : ∀ src : Hunter.HealSource, ∀ h', h' = Hunter.heal_core h v src →
      h'.hp = h.hp + min v (h.max_hp - h.hp) ∧ h.hp ≤ h'.hp ∧ h'.hp ≤ h.max_hp := by
    intro src h' hh'
    subst hh'
    exact ⟨hcore_hp src, by rw [hcore_hp src]; linarith, by rw [hcore_hp src]; linarith⟩
  unfold Hunter.heal_hp Hunter.parseHealSource
  split_ifs with h1 h2 h3 h4
  · refine ⟨by simp [h1], fun h' hok => ?_⟩
    have hh' : h' = Hunter.heal_core h v .regen := by
      injection hok with hh
      exact hh.symm
    obtain ⟨e1, e2, e3⟩ := hbounds _ h' hh'
    subst hh'
    refine ⟨e1, e2, e3, fun _ => rfl, ?_, ?_, ?_⟩ <;> intro htag <;>
      exact absurd (h1.symm.trans htag) (by decide)
  · refine ⟨by simp [h2], fun h' hok => ?_⟩
    have hh' : h' = Hunter.heal_core h v .steal := by
      injection hok with hh
      exact hh.symm
    obtain ⟨e1, e2, e3⟩ := hbounds _ h' hh'
    subst hh'
    refine ⟨e1, e2, e3, ?_, fun _ => rfl, ?_, ?_⟩ <;> intro htag <;>
      exact absurd (h2.symm.trans htag) (by decide)
  · refine ⟨by simp [h3], fun h' hok => ?_⟩
    have hh' : h' = Hunter.heal_core h v .loth := by
      injection hok with hh
      exact hh.symm
    obtain ⟨e1, e2, e3⟩ := hbounds _ h' hh'
    subst hh'
    refine ⟨e1, e2, e3, ?_, ?_, fun _ => rfl, ?_⟩ <;> intro htag <;>
      exact absurd (h3.symm.trans htag) (by decide)
  · refine ⟨by simp [h4], fun h' hok => ?_⟩
    have hh' : h' = Hunter.heal_core h v .potion := by
      injection hok with hh
      exact hh.symm
    obtain ⟨e1, e2, e3⟩ := hbounds _ h' hh'
    subst hh'
    refine ⟨e1, e2, e3, ?_, ?_, ?_, fun _ => rfl⟩ <;> intro htag <;>
      exact absurd (h4.symm.trans htag) (by decide)
  · refine ⟨?_, fun h' hok => absurd hok (by simp)⟩
    simp [h1, h2, h3, h4]

/-- Witness for C7: healing 5 into a hunter missing 10 hp from source
`"regen"` succeeds; the bounds hold at that input. -/
theorem claim_C7_witness :
    (∃ h', Hunter.heal_hp { sampleBorge with hp := 90 } 5 "regen" = .ok h') ∧
    (∀ h', Hunter.heal_hp { sampleBorge with hp := 90 } 5 "regen" = .ok h' →
      h'.hp = (90 : ℚ) + min 5 ((100 : ℚ) - 90) ∧ h'.hp ≤ 100) := by
  have h := claim_C7_heal_hp { sampleBorge with hp := 90 } 5 "regen"
    (by norm_num [sampleBorge, baseHunter]) (by norm_num [sampleBorge, baseHunter]) (by norm_num)
  refine ⟨h.1.mpr (Or.inl (by decide)), fun h' hok => ?_⟩
  have h2 := h.2 h' hok
  constructor
  · simpa [sampleBorge, baseHunter] using h2.1
  · simpa [sampleBorge, baseHunter] using h2.2.2.1

/-- **C8**: in the base `Hunter.receive_damage`, a successful evade roll
returns 0 and changes nothing except the evade counter; a failed roll
applies exactly `damage * (1 - damage_reduction)` (to hp, pre-death-check,
and to the taken/mitigated/suffered counters), and that applied damage
never exceeds the raw damage when `0 ≤ damage` and
`0 ≤ damage_reduction ≤ 1`. -/
theorem claim_C8_receive_damage (h : Hunter) (damage r : ℚ)
    (hd : 0 ≤ damage) (hdr0 : 0 ≤ h.damage_reduction) (hdr1 : h.damage_reduction ≤ 1) :
    (r < h.evade_chance →
      h.receive_damage damage r = (0, { h with total_evades := h.total_evades + 1 })) ∧
    (¬ r < h.evade_chance →
      (h.receive_damage damage r).1 = damage * (1 - h.damage_reduction) ∧
      (h.receive_damage damage r).1 ≤ damage ∧
      (h.receive_damage damage r).2.total_taken
        = h.total_taken + damage * (1 - h.damage_reduction) ∧
      (h.receive_damage damage r).2.total_mitigated
        = h.total_mitigated + (damage - damage * (1 - h.damage_reduction)) ∧
      (h.receive_damage damage r).2.total_attacks_suffered = h.total_attacks_suffered + 1 ∧
      (¬ h.hp - damage * (1 - h.damage_reduction) ≤ 0 →
        (h.receive_damage damage r).2.hp = h.hp - damage * (1 - h.damage_reduction))) := by
  constructor
  · intro hev
    simp [Hunter.receive_damage, hev]
  · intro hev
    have hle : damage * (1 - h.damage_reduction) ≤ damage := by
      nlinarith
    have honod : ∀ h0 : Hunter,
        (Hunter.on_death h0).total_taken = h0.total_taken ∧
        (Hunter.on_death h0).total_mitigated = h0.total_mitigated ∧
        (Hunter.on_death h0).total_attacks_suffered = h0.total_attacks_suffered := by
      intro h0
      unfold Hunter.on_death
      split <;> exact ⟨rfl, rfl, rfl⟩
    have key : h.receive_damage damage r = (damage * (1 - h.damage_reduction),
        if Hunter.is_dead { h with
          hp := h.hp - damage * (1 - h.damage_reduction)
          total_taken := h.total_taken + damage * (1 - h.damage_reduction)
          total_mitigated := h.total_mitigated + (damage - damage * (1 - h.damage_reduction))
          total_attacks_suffered := h.total_attacks_suffered + 1 } then
          Hunter.on_death { h with
            hp := h.hp - damage * (1 - h.damage_reduction)
            total_taken := h.total_taken + damage * (1 - h.damage_reduction)
            total_mitigated := h.total_mitigated + (damage - damage * (1 - h.damage_reduction))
            total_attacks_suffered := h.total_attacks_suffered + 1 }
        else { h with
            hp := h.hp - damage * (1 - h.damage_reduction)
            total_taken := h.total_taken + damage * (1 - h.damage_reduction)
            total_mitigated := h.total_mitigated + (damage - damage * (1 - h.damage_reduction))
            total_attacks_suffered := h.total_attacks_suffered + 1 }) := by
      unfold Hunter.receive_damage
      rw [if_neg hev]
    rw [key]
    refine ⟨rfl, ?_, ?_, ?_, ?_, ?_⟩
    · exact hle
    · show (if _ then _ else _ : Hunter).total_taken = _
      split
      · exact (honod _).1
      · rfl
    · show (if _ then _ else _ : Hunter).total_mitigated = _
      split
      · exact (honod _).2.1
      · rfl
    · show (if _ then _ else _ : Hunter).total_attacks_suffered = _
      split
      · exact (honod _).2.2
      · rfl
    · intro halive
      show (if _ then _ else _ : Hunter).hp = _
      rw [if_neg (by simpa [Hunter.is_dead] using halive)]

/-- Witness for C8 at a concrete hit: Borge with 20% damage reduction takes
a raw 10 with an evade roll that fails. -/
theorem claim_C8_witness :
    ((0.5 : ℚ) < sampleBorge.evade_chance →
      sampleBorge.receive_damage 10 0.5
        = (0, { sampleBorge with total_evades := sampleBorge.total_evades + 1 })) ∧
    (¬ (0.5 : ℚ) < sampleBorge.evade_chance →
      (sampleBorge.receive_damage 10 0.5).1
          = 10 * (1 - sampleBorge.damage_reduction) ∧
      (sampleBorge.receive_damage 10 0.5).1 ≤ 10) := by
  have h := claim_C8_receive_damage sampleBorge 10 0.5 (by norm_num)
    (by norm_num [Hunter.damage_reduction, Hunter.borgeDR, Hunter.bossStage, sampleBorge, baseHunter])
    (by norm_num [Hunter.damage_reduction, Hunter.borgeDR, Hunter.bossStage, sampleBorge, baseHunter])
  exact ⟨h.1, fun hev => ⟨(h.2 hev).1, (h.2 hev).2.1⟩⟩

/-- **C9**: the stat accessors `power`, `damage_reduction`,
`effect_chance`, `special_chance`, `special_damage` and `evade_chance` are
pure reads — in particular their values are unchanged by the one
self-mutating accessor — while reading Borge's `speed` consumes the Fires
of War bonus exactly once: after `apply_fow`, the first read returns the
speed including the bonus and zeroes it (touching no other field), and an
immediately following read returns the speed without the bonus. -/
theorem claim_C9_accessor_idempotence (h : Hunter) (hk : h.kind = .borge) :
    (h.speedRead.2 = { h with fires_of_war := 0 } ∧
      Hunter.power h.speedRead.2 = Hunter.power h ∧
      Hunter.damage_reduction h.speedRead.2 = Hunter.damage_reduction h ∧
      Hunter.effect_chance h.speedRead.2 = Hunter.effect_chance h ∧
      Hunter.special_chance h.speedRead.2 = Hunter.special_chance h ∧
      Hunter.special_damage h.speedRead.2 = Hunter.special_damage h ∧
      Hunter.evade_chance h.speedRead.2 = Hunter.evade_chance h) ∧
    (h.apply_fow.speedRead.1
        = Hunter.borgeSpeedVal { h with fires_of_war := 0 } - h.tal_fires_of_war * 0.1 ∧
      h.apply_fow.speedRead.2.fires_of_war = 0 ∧
      h.apply_fow.speedRead.2.speedRead.1 = Hunter.borgeSpeedVal { h with fires_of_war := 0 } ∧
      h.apply_fow.speedRead.2.speedRead.1
        = h.apply_fow.speedRead.1 + h.tal_fires_of_war * 0.1) := by
  have hval : ∀ q : ℚ, Hunter.borgeSpeedVal { h with fires_of_war := q }
      = Hunter.borgeSpeedVal { h with fires_of_war := 0 } - q := by
    intro q
    simp only [Hunter.borgeSpeedVal, Hunter.bossStage, Hunter.cuFactor]
    split_ifs <;> ring
  have hread : ∀ q : ℚ, Hunter.speedRead { h with fires_of_war := q }
      = (Hunter.borgeSpeedVal { h with fires_of_war := q }, { h with fires_of_war := 0 }) := by
    intro q
    unfold Hunter.speedRead
    simp only [hk]
  have h2 : h.speedRead.2 = { h with fires_of_war := 0 } := by
    have h3 := congrArg Prod.snd (hread h.fires_of_war)
    exact h3
  constructor
  · refine ⟨h2, ?_, ?_, ?_, ?_, ?_, ?_⟩ <;> rw [h2] <;> rfl
  · have hfow : h.apply_fow = { h with fires_of_war := (h.tal_fires_of_war : ℚ) * 0.1 } := rfl
    simp only [hfow, hread]
    refine ⟨?_, ?_, ?_, ?_⟩
    · exact hval _
    · trivial
    · trivial
    · rw [hval ((h.tal_fires_of_war : ℚ) * 0.1)]
      ring

/-- Witness for C9 at a concrete Borge with Fires of War 3. -/
theorem claim_C9_witness :
    sampleBorge.speedRead.2 = { sampleBorge with fires_of_war := 0 } ∧
    sampleBorge.apply_fow.speedRead.2.speedRead.1
      = sampleBorge.apply_fow.speedRead.1 + sampleBorge.tal_fires_of_war * 0.1 := by
  have h := claim_C9_accessor_idempotence sampleBorge rfl
  exact ⟨h.1.1, h.2.2.2.2⟩

/-- The stun duration computed inside `Borge.apply_stun` / `Ozzy.apply_stun`
(`hunters.py` 759-768 and 1307-1316): talent level times 0.1 (Borge) or
0.05 (Ozzy) seconds, halved against bosses. -/
def stunDurationOf (h : Hunter) (is_boss : Bool) : ℚ :=
  let stun_effect : ℚ := if is_boss then 0.5 else 1
  match h.kind with
  | .borge => h.tal_impeccable_impacts * 0.1 * stun_effect
  | .ozzy => h.tal_thousand_needles * 0.05 * stun_effect

/-- **C4**: when the scheduler processes a `'stun'` event at time `now`,
the queued enemy primary event is removed and re-inserted at
`now + accumulated stun duration` (the accumulation is `Unit.stun`,
`units.py` 83-89, `stun_duration += duration`); a second stun processed
during the same wind-up therefore delays the pending attack by the sum of
both durations instead of replacing the first delay. -/
theorem claim_C4_stun_requeue (s : SimState) (now now' : ℚ) :
    (s.stepStun now).enemy.stun_duration
      = s.enemy.stun_duration + stunDurationOf s.hunter s.enemy.isBoss ∧
    (s.stepStun now).queue
      = heappush (s.queue.eraseP (fun ev => ev.act == .enemy))
          ⟨now + (s.enemy.stun_duration + stunDurationOf s.hunter s.enemy.isBoss), 2, .enemy⟩ ∧
    ((s.stepStun now).stepStun now').enemy.stun_duration
      = s.enemy.stun_duration + stunDurationOf s.hunter s.enemy.isBoss
          + stunDurationOf s.hunter s.enemy.isBoss ∧
    ((s.stepStun now).stepStun now').queue
      = heappush ((s.stepStun now).queue.eraseP (fun ev => ev.act == .enemy))
          ⟨now' + (s.enemy.stun_duration + stunDurationOf s.hunter s.enemy.isBoss
              + stunDurationOf s.hunter s.enemy.isBoss), 2, .enemy⟩ := by
  refine ⟨rfl, rfl, ?_, ?_⟩ <;>
    · show _ = _
      unfold SimState.stepStun Hunter.apply_stun EState.stun stunDurationOf
      cases s.hunter.kind <;> simp [add_assoc]

/-- Modelled from the spec: the boss enrage mechanism of the `Boss` class
missing from `src/` — "boss's own attack cadence accelerates (speed
decreases following a capped linear function of an ever-incrementing enrage
counter) each time it attacks, on either of its one or two independent
attack tracks; a hard floor value prevents the speed from reaching
non-positive values."  One attack track: per-attack the counter increments,
and the track's speed is the base speed reduced by the capped linear
function of the counter, floored. -/
structure BossTrack : Type where
  base_speed : ℚ
  enrage_rate : ℚ
  enrage_cap : ℚ
  speed_floor : ℚ
  enrage_stacks : ℕ

namespace BossTrack

/-- The track's current speed: capped linear decrease, hard floor. -/
def speedAt (b : BossTrack) : ℚ :=
  max (b.base_speed - min (b.enrage_rate * b.enrage_stacks) b.enrage_cap) b.speed_floor

/-- One attack on the track: the enrage counter increments. -/
def onAttack (b : BossTrack) : BossTrack :=
  { b with enrage_stacks := b.enrage_stacks + 1 }

end BossTrack

/-- **C5** (modelled from the spec; the `Boss` class `sim.py` drives is
missing from `src/`): each attack increments the enrage counter by exactly
one; the track's speed decreases monotonically following the capped linear
function of the counter; and the hard floor keeps the speed strictly
positive after any number of attacks. -/
theorem claim_C5_boss_enrage_floor (b : BossTrack)
    (hfloor : 0 < b.speed_floor) (hrate : 0 ≤ b.enrage_rate) :
    ∀ n : ℕ,
      (BossTrack.onAttack^[n] b).enrage_stacks = b.enrage_stacks + n ∧
      0 < (BossTrack.onAttack^[n] b).speedAt ∧
      (BossTrack.onAttack^[n + 1] b).speedAt ≤ (BossTrack.onAttack^[n] b).speedAt := by
  have hiter : ∀ n : ℕ, BossTrack.onAttack^[n] b
      = { b with enrage_stacks := b.enrage_stacks + n } := by
    intro n
    induction n with
    | zero => rfl
    | succ k ih =>
      rw [Function.iterate_succ_apply', ih]
      unfold BossTrack.onAttack
      simp [Nat.add_assoc]
  intro n
  refine ⟨by rw [hiter], ?_, ?_⟩
  · rw [hiter]
    exact lt_of_lt_of_le hfloor (le_max_right _ _)
  · rw [hiter, hiter]
    unfold BossTrack.speedAt
    have key : b.enrage_rate * ((b.enrage_stacks + n : ℕ) : ℚ)
        ≤ b.enrage_rate * ((b.enrage_stacks + (n + 1) : ℕ) : ℚ) := by
      apply mul_le_mul_of_nonneg_left _ hrate
      exact_mod_cast (by omega : b.enrage_stacks + n ≤ b.enrage_stacks + (n + 1))
    exact max_le_max (sub_le_sub_left (min_le_min key (le_refl _)) _) (le_refl _)

/-- Witness for C5 at the Exon-12 boss's primary track figures. -/
theorem claim_C5_witness :
    (BossTrack.onAttack^[300] ⟨7.85, 0.035, 5, 1, 0⟩).enrage_stacks = 0 + 300 ∧
    0 < (BossTrack.onAttack^[300] ⟨7.85, 0.035, 5, 1, 0⟩).speedAt :=
  have h := claim_C5_boss_enrage_floor ⟨7.85, 0.035, 5, 1, 0⟩ (by norm_num) (by norm_num) 300
  ⟨h.1, h.2.1⟩

/-- **C10**: for Ozzy with at least one trickster charge, `receive_damage`
consumes exactly one charge and counts a trickster evade; hp, every damage
total and the random stream are untouched, whatever the damage and crit
flag were (no evade or Dance of Dashes roll happens). -/
theorem claim_C10_trickster_charge (h : Hunter) (e : EState) (damage : ℚ) (is_crit : Bool)
    (rng : Rng) (hk : h.kind = .ozzy) (hc : 1 ≤ h.trickster_charges) :
    h.receiveFrom e damage is_crit rng =
      ({ h with
          trickster_charges := h.trickster_charges - 1
          total_trickster_evades := h.total_trickster_evades + 1 }, e, rng) := by
  unfold Hunter.receiveFrom Hunter.ozzyReceive
  rw [hk]
  simp only []
  rw [if_pos (by omega)]

/-- Witness for C10: Ozzy with one charge hit by a 1000-damage crit. -/
theorem claim_C10_witness :
    sampleOzzy.receiveFrom (EState.mk 50 50 5 4 0 0 0 0 0 false 0 0) 1000 true zeroRng =
      ({ sampleOzzy with
          trickster_charges := sampleOzzy.trickster_charges - 1
          total_trickster_evades := sampleOzzy.total_trickster_evades + 1 },
        EState.mk 50 50 5 4 0 0 0 0 0 false 0 0, zeroRng) :=
  claim_C10_trickster_charge sampleOzzy _ 1000 true zeroRng rfl (by decide)

/-!
## Claim C1: the scheduler's pop order

What does hold of `simulate_combat`'s queue: pops return the minimum of the
queue in `(timestamp, priority, action-string)` order and preserve the heap
shape, every event a dispatch inserts carries its fixed tie-break priority
(hunter 1, enemy 2, enemy special 2, regen 3) or is one of the four
timestamp-0 triggered events (stun at priority 0, chained sub-attacks at
1/2/3), and a pending triggered event below a pending primary is popped
first.  The original claim's "ascending timestamp order across the whole
run" is refuted by `claim_C1_counterexample`: triggered sub-attacks are
pushed at absolute timestamp 0, behind the current clock. -/

/-- **C1** (amended): (a) a pop from a well-formed queue returns a minimal
event — earliest timestamp, then lowest tie-break priority — and preserves
the heap invariant; (b) a push preserves the heap invariant; (c) every event
inserted by one scheduler dispatch either was already queued or is a
rescheduled primary/regen event bearing its fixed priority (hunter 1,
enemy 2, enemy special 2, regen 3) or is one of the four triggered events at
timestamp 0 (stun at priority 0, multistrike/echo/echo-multistrike at
1/2/3); (d) consequently, while a triggered event with an earlier timestamp
— or the same timestamp and a strictly lower priority — than a pending
primary event is in the queue, the pop cannot return that primary event. -/
theorem claim_C1_scheduler_order :
    (∀ (q : List Event), PyHeap.IsHeap q → ∀ x q', PyHeap.heappop q = some (x, q') →
        x ∈ q ∧ (∀ y ∈ q, x ≤ y) ∧ PyHeap.IsHeap q') ∧
    (∀ (q : List Event) (x : Event), PyHeap.IsHeap q → PyHeap.IsHeap (PyHeap.heappush q x)) ∧
    (∀ s s' : SimState, s.combatStep = some s' → ∀ ev ∈ s'.queue,
        ev ∈ s.queue ∨
        (ev.act = .hunter ∧ ev.priority = 1) ∨
        (ev.act = .enemy ∧ ev.priority = 2) ∨
        (ev.act = .enemySpecial ∧ ev.priority = 2) ∨
        (ev.act = .regen ∧ ev.priority = 3) ∨
        (ev.time = 0 ∧ (ev = ⟨0, 0, .stun⟩ ∨ ev = ⟨0, 1, .hunterSpecial⟩ ∨
          ev = ⟨0, 2, .hunterSpecial⟩ ∨ ev = ⟨0, 3, .hunterSpecial⟩))) ∧
    (∀ (q : List Event) (trig prim : Event) (q' : List Event),
        PyHeap.IsHeap q → trig ∈ q →
        (trig.time < prim.time ∨ (trig.time = prim.time ∧ trig.priority < prim.priority)) →
        PyHeap.heappop q ≠ some (prim, q')) := by
  refine ⟨?_, ?_, ?_, ?_⟩
  · intro q hq x q' hpop
    obtain ⟨hmem, hmin, hheap, _, _⟩ := PyHeap.heappop_spec q hq x q' hpop
    exact ⟨hmem, hmin, hheap⟩
  · intro q x hq
    exact PyHeap.isHeap_heappush q x hq
  · intro s s' hstep ev hev
    unfold SimState.combatStep at hstep
    cases hpop : PyHeap.heappop s.queue with
    | none =>
      rw [hpop] at hstep
      exact absurd hstep (by simp)
    | some p =>
      obtain ⟨ev0, q⟩ := p
      rw [hpop] at hstep
      simp only [Option.some.injEq] at hstep
      subst hstep
      have hsub : ∀ z ∈ q, z ∈ s.queue := PyHeap.heappop_subset s.queue ev0 q hpop
      cases hact : ev0.act <;> rw [hact] at hev <;> simp only [] at hev
      · -- hunter
        unfold SimState.stepHunter at hev
        simp only [] at hev
        rcases PyHeap.mem_heappush _ _ _ hev with h1 | h1
        · rcases mem_foldl_heappush _ _ _ h1 with h2 | h2
          · exact Or.inl (hsub _ h2)
          · rcases attack_pushes _ _ _ ev h2 with h3 | h3 | h3 | h3 <;> subst h3 <;>
              exact Or.inr (Or.inr (Or.inr (Or.inr (Or.inr ⟨rfl, by simp⟩))))
        · subst h1
          exact Or.inr (Or.inl ⟨rfl, rfl⟩)
      · -- enemy
        unfold SimState.stepEnemy at hev
        simp only [] at hev
        split at hev
        · rcases PyHeap.mem_heappush _ _ _ hev with h1 | h1
          · exact Or.inl (hsub _ h1)
          · subst h1
            exact Or.inr (Or.inr (Or.inl ⟨rfl, rfl⟩))
        · exact Or.inl (hsub _ hev)
      · -- stun
        unfold SimState.stepStun at hev
        simp only [] at hev
        rcases PyHeap.mem_heappush _ _ _ hev with h1 | h1
        · exact Or.inl (hsub _ (List.eraseP_subset _ h1))
        · subst h1
          exact Or.inr (Or.inr (Or.inl ⟨rfl, rfl⟩))
      · -- hunter special
        unfold SimState.stepHunterSpecial at hev
        simp only [] at hev
        rcases mem_foldl_heappush _ _ _ hev with h2 | h2
        · exact Or.inl (hsub _ h2)
        · rcases attack_pushes _ _ _ ev h2 with h3 | h3 | h3 | h3 <;> subst h3 <;>
            exact Or.inr (Or.inr (Or.inr (Or.inr (Or.inr ⟨rfl, by simp⟩))))
      · -- enemy special
        unfold SimState.stepEnemySpecial at hev
        simp only [] at hev
        split at hev
        · rcases PyHeap.mem_heappush _ _ _ hev with h1 | h1
          · exact Or.inl (hsub _ h1)
          · subst h1
            exact Or.inr (Or.inr (Or.inr (Or.inl ⟨rfl, rfl⟩)))
        · exact Or.inl (hsub _ hev)
      · -- regen
        unfold SimState.stepRegen at hev
        simp only [] at hev
        rcases PyHeap.mem_heappush _ _ _ hev with h1 | h1
        · exact Or.inl (hsub _ h1)
        · subst h1
          exact Or.inr (Or.inr (Or.inr (Or.inr (Or.inl ⟨rfl, rfl⟩))))
  · intro q trig prim q' hq htrig hlt hcon
    obtain ⟨_, hmin, _, _, _⟩ := PyHeap.heappop_spec q hq prim q' hcon
    have h1 : prim ≤ trig := hmin trig htrig
    have h2 : trig < prim := by
      rw [Event.lt_def]
      rcases hlt with h | ⟨h, hp⟩
      · exact Or.inl h
      · exact Or.inr ⟨h, Or.inl hp⟩
    exact absurd (lt_of_lt_of_le h2 h1) (lt_irrefl _)

/-- Witness for C1: pop and push on the two-event heap
`[(0,0,stun), (1,1,hunter)]`, one regen dispatch on `wsState`, and the pop
being barred from returning the primary while the stun is pending. -/
theorem claim_C1_witness :
    ((⟨0, 0, .stun⟩ : Event) ∈ ([⟨0, 0, .stun⟩, ⟨1, 1, .hunter⟩] : List Event) ∧
      (∀ y ∈ ([⟨0, 0, .stun⟩, ⟨1, 1, .hunter⟩] : List Event), (⟨0, 0, .stun⟩ : Event) ≤ y) ∧
      PyHeap.IsHeap ([⟨1, 1, .hunter⟩] : List Event)) ∧
    PyHeap.IsHeap (PyHeap.heappush ([⟨0, 0, .stun⟩, ⟨1, 1, .hunter⟩] : List Event) ⟨2, 3, .regen⟩) ∧
    ((⟨1, 3, .regen⟩ : Event) ∈ wsState.queue ∨
      ((⟨1, 3, .regen⟩ : Event).act = .hunter ∧ (⟨1, 3, .regen⟩ : Event).priority = 1) ∨
      ((⟨1, 3, .regen⟩ : Event).act = .enemy ∧ (⟨1, 3, .regen⟩ : Event).priority = 2) ∨
      ((⟨1, 3, .regen⟩ : Event).act = .enemySpecial ∧ (⟨1, 3, .regen⟩ : Event).priority = 2) ∨
      ((⟨1, 3, .regen⟩ : Event).act = .regen ∧ (⟨1, 3, .regen⟩ : Event).priority = 3) ∨
      ((⟨1, 3, .regen⟩ : Event).time = 0 ∧ ((⟨1, 3, .regen⟩ : Event) = ⟨0, 0, .stun⟩ ∨
        (⟨1, 3, .regen⟩ : Event) = ⟨0, 1, .hunterSpecial⟩ ∨
        (⟨1, 3, .regen⟩ : Event) = ⟨0, 2, .hunterSpecial⟩ ∨
        (⟨1, 3, .regen⟩ : Event) = ⟨0, 3, .hunterSpecial⟩))) ∧
    PyHeap.heappop ([⟨0, 0, .stun⟩, ⟨1, 1, .hunter⟩] : List Event) ≠
      some (⟨1, 1, .hunter⟩, [⟨1, 1, .hunter⟩]) := by
  have hheap : PyHeap.IsHeap ([⟨0, 0, .stun⟩, ⟨1, 1, .hunter⟩] : List Event) := by
    intro j hj0 hjl
    simp only [List.length_cons, List.length_nil] at hjl
    have hj : j = 1 := by omega
    subst hj
    show (⟨0, 0, .stun⟩ : Event) ≤ ⟨1, 1, .hunter⟩
    rw [Event.le_def]
    exact Or.inl (by norm_num)
  refine ⟨claim_C1_scheduler_order.1 _ hheap _ _ (by with_unfolding_all decide),
    claim_C1_scheduler_order.2.1 _ _ hheap,
    claim_C1_scheduler_order.2.2.1 wsState ((SimState.combatStep wsState).getD wsState)
      (by with_unfolding_all rfl) _ (by with_unfolding_all decide),
    claim_C1_scheduler_order.2.2.2 _ ⟨0, 0, .stun⟩ _ _ hheap (by decide)
      (Or.inl (by norm_num))⟩

/-- **C1 counterexample**: the original claim "events are popped in
ascending order of (timestamp, tie-break priority) in every run" is false.
From the seeded start state of a run (an Ozzy whose Multi-Strike always
procs against a slow sturdy enemy, constant-0 random stream), the seventh
pop returns the triggered sub-attack event `(0, 1, 'hunter_special')` —
timestamp 0 — right after the sixth pop returned `(4, 1, 'hunter')` at
timestamp 4, because `Ozzy.attack` pushes its chained sub-attack at
absolute timestamp 0 rather than at the current clock. -/
theorem claim_C1_counterexample :
    SimState.popTrace 7 cexState =
      [⟨0, 3, .regen⟩, ⟨1, 3, .regen⟩, ⟨2, 3, .regen⟩, ⟨3, 2, .enemy⟩,
       ⟨3, 3, .regen⟩, ⟨4, 1, .hunter⟩, ⟨0, 1, .hunterSpecial⟩] ∧
    ¬ SimState.PopsAscending (SimState.popTrace 7 cexState) := by
  have h1 : SimState.popTrace 7 cexState =
      [⟨0, 3, .regen⟩, ⟨1, 3, .regen⟩, ⟨2, 3, .regen⟩, ⟨3, 2, .enemy⟩,
       ⟨3, 3, .regen⟩, ⟨4, 1, .hunter⟩, ⟨0, 1, .hunterSpecial⟩] := by
    with_unfolding_all decide
  refine ⟨h1, ?_⟩
  unfold SimState.PopsAscending
  rw [h1]
  norm_num [List.chain'_cons]

/-!
## Claim C2: determinism of a run over a fixed random stream
-/

/-- **C2**: the combat loop is deterministic given the random stream, which
is part of the scheduler state.  The observable step relation `CombatStepR`
coincides with the step function `combatStep` (so an execution has no
freedom beyond the state, including its random stream), and two executions
of the same number of steps from one state — same build, same stream — end
in bit-identical states and produce bit-identical result records. -/
theorem claim_C2_determinism :
    (∀ s t : SimState, CombatStepR s t ↔ s.combatStep = some t) ∧
    (∀ (n : ℕ) (s t₁ t₂ : SimState), RunSteps n s t₁ → RunSteps n s t₂ →
      t₁ = t₂ ∧ getResults t₁ = getResults t₂) := by
  have hiff : ∀ s t : SimState, CombatStepR s t ↔ s.combatStep = some t := by
    intro s t
    constructor
    · intro h
      cases h <;> rename_i ev q hpop hact <;> unfold SimState.combatStep <;>
        rw [hpop] <;> simp only [] <;> rw [hact]
    · intro h
      unfold SimState.combatStep at h
      cases hpop : PyHeap.heappop s.queue with
      | none =>
        rw [hpop] at h
        exact absurd h (by simp)
      | some p =>
        obtain ⟨ev, q⟩ := p
        rw [hpop] at h
        simp only [Option.some.injEq] at h
        cases hact : ev.act <;> rw [hact] at h <;> simp only [] at h <;> subst h
        · exact CombatStepR.hunter s ev q hpop hact
        · exact CombatStepR.enemy s ev q hpop hact
        · exact CombatStepR.stun s ev q hpop hact
        · exact CombatStepR.hunterSpecial s ev q hpop hact
        · exact CombatStepR.enemySpecial s ev q hpop hact
        · exact CombatStepR.regen s ev q hpop hact
  refine ⟨hiff, ?_⟩
  have hdet : ∀ s t₁ t₂ : SimState, CombatStepR s t₁ → CombatStepR s t₂ → t₁ = t₂ := by
    intro s t₁ t₂ h1 h2
    have e1 := (hiff s t₁).mp h1
    have e2 := (hiff s t₂).mp h2
    rw [e1] at e2
    exact Option.some.inj e2
  have heq : ∀ (n : ℕ) (s t₁ t₂ : SimState), RunSteps n s t₁ → RunSteps n s t₂ → t₁ = t₂ := by
    intro n
    induction n with
    | zero =>
      intro s t₁ t₂ h1 h2
      cases h1
      cases h2
      rfl
    | succ m ih =>
      intro s t₁ t₂ h1 h2
      cases h1 with
      | succ _ _ s1 _ hs1 hr1 =>
        cases h2 with
        | succ _ _ s2 _ hs2 hr2 =>
          obtain rfl := hdet s s1 s2 hs1 hs2
          exact ih s1 t₁ t₂ hr1 hr2
  intro n s t₁ t₂ h1 h2
  have e := heq n s t₁ t₂ h1 h2
  exact ⟨e, by rw [e]⟩

/-- Witness for C2: the regen dispatch from the one-event state `wsState`,
run twice for one step; plus `combatStep`'s value realizing the relation. -/
theorem claim_C2_witness :
    CombatStepR wsState ((SimState.combatStep wsState).getD wsState) ∧
    SimState.stepRegen { wsState with queue := [] } =
      SimState.stepRegen { wsState with queue := [] } ∧
    getResults (SimState.stepRegen { wsState with queue := [] }) =
      getResults (SimState.stepRegen { wsState with queue := [] }) := by
  have hstep : CombatStepR wsState (SimState.stepRegen { wsState with queue := [] }) :=
    CombatStepR.regen wsState ⟨0, 3, .regen⟩ [] (by with_unfolding_all decide) rfl
  refine ⟨(claim_C2_determinism.1 wsState _).mpr (by with_unfolding_all rfl), ?_, ?_⟩
  · exact (claim_C2_determinism.2 1 wsState _ _
      (RunSteps.succ 0 wsState _ _ hstep (RunSteps.zero _))
      (RunSteps.succ 0 wsState _ _ hstep (RunSteps.zero _))).1
  · exact (claim_C2_determinism.2 1 wsState _ _
      (RunSteps.succ 0 wsState _ _ hstep (RunSteps.zero _))
      (RunSteps.succ 0 wsState _ _ hstep (RunSteps.zero _))).2

/-!
## Claim C3: termination conditions, and the absence of a ceiling

The exit conditions of the loops are as claimed (the combat loop only ever
returns with a dead combatant, the run only finishes with a dead hunter,
and a death is final only with the revive charges spent) — but no
iteration/stage/time ceiling exists anywhere in `simulate_combat`: the
stalemate build of `cexLoopState` runs the combat loop forever.
-/

theorem invH_special_chance (h : Hunter) (hk : h.kind = .borge)
    (hspc : h.specialChanceRaw = 0) (hatl : h.attr_atlas_protocol = 0) :
    h.special_chance = 0 := by
  unfold Hunter.special_chance
  rw [hk]
  simp only []
  split <;> simp [hspc, hatl]

theorem invH_power (h : Hunter) (hk : h.kind = .borge) (hpw : h.powerRaw = 0) :
    h.power = 0 := by
  unfold Hunter.power Hunter.borgePower
  rw [hk]
  simp only []
  rw [hpw]
  ring

/-- Under the stalemate invariant, the hunter's attack changes no relevant
field, keeps the enemy's facts, pushes nothing and keeps the stream
function. -/
theorem invH_attack (h : Hunter) (e : EState) (rng : Rng)
    (hh : InvH h) (he : InvE e) (hRf : rng.f = fun _ => 0) :
    InvH (Hunter.attack h e rng).1 ∧ InvE (Hunter.attack h e rng).2.1 ∧
    (Hunter.attack h e rng).2.2.1.f = rng.f ∧ (Hunter.attack h e rng).2.2.2 = [] := by
  have hsc : Hunter.special_chance h = 0 :=
    invH_special_chance h hh.1 hh.2.2.2.2.2.1 hh.2.2.2.2.2.2.1
  have hpow : Hunter.power h = 0 := invH_power h hh.1 hh.2.2.2.1
  obtain ⟨hk, hhp, hmax, hpw, hev, hspc, hatl, hreg, hloth, himp, hfow⟩ := hh
  obtain ⟨ehp, emax, espc, ereg⟩ := he
  unfold Hunter.attack
  rw [hk]
  unfold Hunter.borgeAttack
  simp only [Rng.next, hRf, hsc, hpow, hloth, himp, hfow, lt_self_iff_false, if_false,
    ne_eq, not_true_eq_false, and_false, ite_false]
  simp only [Hunter.heal_core, Hunter.missing_hp, EState.receive_damage, InvH, InvE,
    zero_mul, sub_zero, add_zero, hk, hhp, hmax, hpw, hev, hspc, hatl, hreg, hloth, himp,
    hfow, ehp, emax, espc, ereg, sub_self, min_self, and_self, and_true, true_and]
  norm_num

/-- Under the stalemate invariant, the enemy's attack is fully evaded:
both sides keep their facts, the enemy stays alive and the stream function
is kept. -/
theorem inv_enemyAttack (e : EState) (h : Hunter) (rng : Rng)
    (hh : InvH h) (he : InvE e) (hRf : rng.f = fun _ => 0) :
    InvH (EState.attack e h rng).2.1 ∧ InvE (EState.attack e h rng).1 ∧
    (EState.attack e h rng).2.2.f = rng.f ∧ ¬ (EState.attack e h rng).1.is_dead := by
  obtain ⟨hk, hhp, hmax, hpw, hev, hspc, hatl, hreg, hloth, himp, hfow⟩ := hh
  obtain ⟨ehp, emax, espc, ereg⟩ := he
  unfold EState.attack
  simp only [Rng.next, hRf, espc, lt_self_iff_false, if_false, ite_false]
  unfold Hunter.receiveFrom
  rw [hk]
  simp only []
  unfold Hunter.borgeReceive
  simp only [Rng.next, hRf]
  unfold Hunter.receive_damage
  simp only [hev, (by norm_num : (0 : ℚ) < 1), if_true, ite_true,
    lt_self_iff_false, and_false, if_false, ite_false, InvH, InvE,
    EState.is_dead, hk, hhp, hmax, hpw, hspc, hatl, hreg, hloth, himp, hfow,
    ehp, emax, espc, ereg, and_self, and_true, true_and]
  norm_num

/-- Under the stalemate invariant, both regen ticks are no-ops on the
facts. -/
theorem inv_regen (h : Hunter) (e : EState) (hh : InvH h) (he : InvE e) :
    InvH (Hunter.regen_hp h) ∧ InvE (EState.regen_tick e) := by
  obtain ⟨hk, hhp, hmax, hpw, hev, hspc, hatl, hreg, hloth, himp, hfow⟩ := hh
  obtain ⟨ehp, emax, espc, ereg⟩ := he
  unfold Hunter.regen_hp
  rw [hk]
  simp only []
  unfold Hunter.borgeRegen Hunter.heal_core Hunter.missing_hp EState.regen_tick
  simp only [InvH, InvE, hk, hhp, hmax, hpw, hev, hspc, hatl, hreg, hloth, himp, hfow,
    ehp, emax, espc, ereg, sub_self, mul_zero, zero_add, add_zero, min_self, and_self,
    and_true, true_and]

/-- The hunter kept by the `speed` read keeps the stalemate facts. -/
theorem invH_speedRead (h : Hunter) (hh : InvH h) : InvH (Hunter.speedRead h).2 := by
  unfold Hunter.speedRead
  rw [hh.1]
  simp only []
  obtain ⟨hk, hhp, hmax, hpw, hev, hspc, hatl, hreg, hloth, himp, hfow⟩ := hh
  exact ⟨rfl, hhp, hmax, hpw, hev, hspc, hatl, hreg, hloth, himp, hfow⟩

/-- Under the stalemate invariant, one combat-loop iteration always
succeeds and preserves the invariant. -/
theorem loopInv_step (s : SimState) (hinv : LoopInv s) :
    ∃ s', s.combatStep = some s' ∧ LoopInv s' := by
  obtain ⟨hH, hE, hR, hne, hacts⟩ := hinv
  obtain ⟨x, q, hpop⟩ := PyHeap.heappop_isSome s.queue hne
  have hxmem : x ∈ s.queue := PyHeap.heappop_mem s.queue x q hpop
  have hsubq : ∀ z ∈ q, z ∈ s.queue := PyHeap.heappop_subset s.queue x q hpop
  refine ⟨_, by unfold SimState.combatStep; rw [hpop], ?_⟩
  rcases hacts x hxmem with hact | hact | hact <;> rw [hact] <;> simp only []
  · -- 'hunter'
    obtain ⟨hA1, hA2, hA3, hA4⟩ := invH_attack s.hunter s.enemy s.rng hH hE hR
    unfold SimState.stepHunter
    refine ⟨?_, ?_, ?_, ?_, ?_⟩
    · exact invH_speedRead _ hA1
    · exact hA2
    · exact hA3.trans hR
    · show PyHeap.heappush _ _ ≠ []
      exact PyHeap.heappush_ne_nil _ _
    · intro ev hev
      rcases PyHeap.mem_heappush _ _ _ hev with h1 | h1
      · rw [hA4] at h1
        simp only [List.foldl_nil] at h1
        exact hacts ev (hsubq ev h1)
      · subst h1
        exact Or.inl rfl
  · -- 'enemy'
    obtain ⟨hB1, hB2, hB3, hB4⟩ := inv_enemyAttack s.enemy s.hunter s.rng hH hE hR
    unfold SimState.stepEnemy
    refine ⟨?_, ?_, ?_, ?_, ?_⟩
    · exact hB1
    · exact hB2
    · exact hB3.trans hR
    · show (if _ then _ else _ : List Event) ≠ []
      rw [if_pos hB4]
      exact PyHeap.heappush_ne_nil _ _
    · intro ev hev
      simp only [] at hev
      rw [if_pos hB4] at hev
      rcases PyHeap.mem_heappush _ _ _ hev with h1 | h1
      · exact hacts ev (hsubq ev h1)
      · subst h1
        exact Or.inr (Or.inl rfl)
  · -- 'regen'
    obtain ⟨hC1, hC2⟩ := inv_regen s.hunter s.enemy hH hE
    unfold SimState.stepRegen
    refine ⟨hC1, hC2, hR, ?_, ?_⟩
    · show PyHeap.heappush _ _ ≠ []
      exact PyHeap.heappush_ne_nil _ _
    · intro ev hev
      rcases PyHeap.mem_heappush _ _ _ hev with h1 | h1
      · exact hacts ev (hsubq ev h1)
      · subst h1
        exact Or.inr (Or.inr rfl)

/-- Under the stalemate invariant the combat loop never returns, whatever
the fuel: there is no engine-imposed ceiling. -/
theorem loopInv_combatLoop_none : ∀ (n : ℕ) (s : SimState), LoopInv s →
    SimState.combatLoop n s = none := by
  have hguard : ∀ s : SimState, LoopInv s → ¬ (s.enemy.is_dead ∨ s.hunter.is_dead) := by
    intro s hinv hcon
    rcases hcon with hc | hc
    · rw [EState.is_dead, hinv.2.1.1] at hc
      norm_num at hc
    · rw [Hunter.is_dead, hinv.1.2.1] at hc
      norm_num at hc
  intro n
  induction n with
  | zero =>
    intro s hinv
    unfold SimState.combatLoop
    rw [if_neg (hguard s hinv)]
  | succ m ih =>
    intro s hinv
    unfold SimState.combatLoop
    rw [if_neg (hguard s hinv)]
    obtain ⟨s', hstep, hinv'⟩ := loopInv_step s hinv
    rw [hstep]
    exact ih s' hinv'

/-- The seeded stalemate state satisfies the invariant. -/
theorem cexLoop_inv : LoopInv cexLoopState := by
  refine ⟨⟨rfl, rfl, rfl, rfl, rfl, rfl, rfl, rfl, rfl, rfl, rfl⟩,
    ⟨rfl, rfl, rfl, rfl⟩, rfl, ?_, ?_⟩
  · show cexLoopState.queue ≠ []
    with_unfolding_all decide
  · show ∀ ev ∈ cexLoopState.queue, _
    with_unfolding_all decide

/-- **C3 counterexample**: no iteration/stage/time ceiling exists — from
the seeded stalemate state (a powerless always-evading full-health Borge
against a healthy enemy, constant-0 random stream), `simulate_combat`'s
per-enemy combat loop has not returned after a million iterations (and, by
`claim_C3_termination`'s last conjunct, never returns). -/
theorem claim_C3_counterexample :
    SimState.combatLoop 1000000 cexLoopState = none :=
  loopInv_combatLoop_none 1000000 cexLoopState cexLoop_inv

/-- The combat loop only returns with a dead combatant. -/
theorem combatLoop_some_dead : ∀ (fuel : ℕ) (s s' : SimState),
    SimState.combatLoop fuel s = some s' → s'.enemy.is_dead ∨ s'.hunter.is_dead := by
  intro fuel
  induction fuel with
  | zero =>
    intro s s' h
    unfold SimState.combatLoop at h
    split at h
    · next hc => exact (Option.some.inj h) ▸ hc
    · exact Option.noConfusion h
  | succ m ih =>
    intro s s' h
    unfold SimState.combatLoop at h
    split at h
    · next hc => exact (Option.some.inj h) ▸ hc
    · split at h
      · exact Option.noConfusion h
      · exact ih _ _ h

/-- The wave loop reports `finished` only with a dead hunter. -/
theorem waveLoop_finished : ∀ (fuel : ℕ) (s : SimState) (enemies : List EState)
    (s' : SimState), waveLoop fuel s enemies = .finished s' → s'.hunter.is_dead := by
  intro fuel
  induction fuel with
  | zero =>
    intro s enemies s' h
    simp only [waveLoop] at h
    exact RunRes.noConfusion h
  | succ m ih =>
    intro s enemies s' h
    simp only [waveLoop] at h
    cases enemies with
    | nil =>
      simp only [] at h
      exact RunRes.noConfusion h
    | cons e0 rest =>
      simp only [] at h
      split at h
      · split at h
        · exact ih _ _ _ h
        · cases hw : SimState.combatLoop m
              { s with enemy := e0, queue := queue_initial_attack s.queue (s.elapsed : ℚ) e0 } with
          | none =>
            rw [hw] at h
            simp only [] at h
            exact RunRes.noConfusion h
          | some s2 =>
            rw [hw] at h
            simp only [] at h
            split at h
            · next hdead =>
              cases h
              exact hdead
            · exact ih _ _ _ h
      · cases hw : SimState.combatLoop m
            { s with enemy := e0, queue := queue_initial_attack s.queue (s.elapsed : ℚ) e0 } with
        | none =>
          rw [hw] at h
          simp only [] at h
          exact RunRes.noConfusion h
        | some s2 =>
          rw [hw] at h
          simp only [] at h
          split at h
          · next hdead =>
            cases h
            exact hdead
          · exact ih _ _ _ h

/-- A death is final only when the revive charges are spent: if a live
hunter dies of a `receive_damage` call, its Death is my Companion level
does not exceed the revives already used. -/
theorem receive_death_spent_revives (h : Hunter) (damage r : ℚ)
    (hnd : ¬ h.is_dead) (hmax : 0 < h.max_hp)
    (hdead : (Hunter.receive_damage h damage r).2.is_dead) :
    h.tal_death_is_my_companion ≤ h.times_revived := by
  by_contra hcon
  push_neg at hcon
  unfold Hunter.receive_damage at hdead
  split at hdead
  · exact hnd hdead
  · simp only [] at hdead
    split at hdead
    · unfold Hunter.on_death at hdead
      rw [if_pos hcon] at hdead
      unfold Hunter.is_dead at hdead
      simp only [] at hdead
      nlinarith [hdead, hmax]
    · next hnd1 => exact hnd1 hdead

/-- **C3** (amended): the claimed exit conditions hold — (a) the per-enemy
combat loop only returns once a combatant's hp is ≤ 0; (b) a whole run
reports `finished` only with the hunter dead; (c) a live hunter that a
damage application leaves dead had no revive charge left
(`death_is_my_companion` level ≤ revives used) — but no engine-imposed
iteration/stage/time ceiling exists: from the seeded stalemate state the
combat loop runs forever — it has not returned after `n` iterations, for
every `n`. -/
theorem claim_C3_termination :
    (∀ (fuel : ℕ) (s s' : SimState), SimState.combatLoop fuel s = some s' →
        s'.enemy.is_dead ∨ s'.hunter.is_dead) ∧
    (∀ (spawn : ℕ → List EState) (fuel : ℕ) (s s' : SimState),
        runLoop spawn fuel s = .finished s' → s'.hunter.is_dead) ∧
    (∀ (h : Hunter) (damage r : ℚ), ¬ h.is_dead → 0 < h.max_hp →
        (Hunter.receive_damage h damage r).2.is_dead →
        h.tal_death_is_my_companion ≤ h.times_revived) ∧
    (∀ n : ℕ, SimState.combatLoop n cexLoopState = none) := by
  refine ⟨combatLoop_some_dead, ?_, receive_death_spent_revives,
    fun n => loopInv_combatLoop_none n cexLoopState cexLoop_inv⟩
  intro spawn fuel
  induction fuel with
  | zero =>
    intro s s' h
    simp only [runLoop] at h
    exact RunRes.noConfusion h
  | succ m ih =>
    intro s s' h
    simp only [runLoop] at h
    split at h
    · exact RunRes.noConfusion h
    · cases hw : waveLoop m s (spawn s.stage) with
      | fuelOut =>
        rw [hw] at h
        simp only [] at h
        exact RunRes.noConfusion h
      | finished s2 =>
        rw [hw] at h
        simp only [] at h
        cases h
        exact waveLoop_finished m s (spawn s.stage) _ hw
      | stageCleared s2 =>
        rw [hw] at h
        simp only [] at h
        exact ih _ _ h
      | err =>
        rw [hw] at h
        simp only [] at h
        exact RunRes.noConfusion h

/-- Witness for C3: the trivial already-decided combat loop, the fatal
3-fuel run of the fragile Borge against the one-shot enemy, and the fatal
hit itself. -/
theorem claim_C3_witness :
    (({ cexDieState with enemy := { cexDieE with hp := 0 } } : SimState).enemy.is_dead ∨
      ({ cexDieState with enemy := { cexDieE with hp := 0 } } : SimState).hunter.is_dead) ∧
    ((runLoop (fun _ => [cexDieE]) 3 cexDieState).stateOr cexDieState).hunter.is_dead ∧
    cexDieH.tal_death_is_my_companion ≤ cexDieH.times_revived ∧
    SimState.combatLoop 5 cexLoopState = none := by
  refine ⟨claim_C3_termination.1 0 ({ cexDieState with enemy := { cexDieE with hp := 0 } })
    _ (by with_unfolding_all rfl), ?_, ?_, claim_C3_termination.2.2.2 5⟩
  · exact claim_C3_termination.2.1 (fun _ => [cexDieE]) 3 cexDieState
      ((runLoop (fun _ => [cexDieE]) 3 cexDieState).stateOr cexDieState)
      (by with_unfolding_all rfl)
  · exact claim_C3_termination.2.2.1 cexDieH 100 0 (by with_unfolding_all decide)
      (by with_unfolding_all decide) (by with_unfolding_all decide)

end HunterSim
